import Mathlib

/-!
Shallow embedding of the x-messager-puppeteer core (src/base.ts, the image
downloader module, and the relevant parts of src/types.ts).

Modelling conventions:
- JavaScript date parsing (`new Date(s).getTime()`) is abstracted as a
  parameter `pd : String → Option Int`; `none` models `NaN` (an unparseable
  string).  A `<` comparison against `NaN` is `false` in JavaScript, which
  `jsLt` mirrors.
- The DOM extraction callback of `fetchSingleUser` is modelled on
  `RawArticle`, an abstraction of one rendered `article` node carrying
  exactly the query results the callback reads.
- The page's per-scroll contents are a function `rounds : Nat → List
  RawArticle` giving the articles rendered when `scrollAttempts` has a given
  value; awaiting, navigation, and rendering failures are outside the loop
  being modelled (a whole-attempt failure appears in the orchestrator model
  as the `collect` oracle returning an error).
- Effectful calls (the collector attempt, the `beforeRetry` hook) are
  modelled as oracle functions; the hook's invocation count is returned
  alongside the result as an observation of the trace, and the hook's own
  outcome is discarded exactly as the source catches and logs it.
-/

namespace XMessager

/-- A JavaScript numeric timestamp: `none` models `NaN` (unparseable date). -/
abbrev JsTime := Option Int

/-- JavaScript `<` on possibly-NaN numbers: any comparison involving NaN is
false. -/
def jsLt : JsTime → JsTime → Bool
  | some a, some b => decide (a < b)
  | _, _ => false

/-- Does `p == c && ...` hold, i.e. is the first list an initial segment of
the second?  Helper for the substring test below. -/
def charsStart : List Char → List Char → Bool
  | [], _ => true
  | _ :: _, [] => false
  | p :: ps, c :: cs => p == c && charsStart ps cs

/-- Does the second list occur inside the first?  (Kernel-computable model of
JavaScript `String.prototype.includes`.) -/
def charsHave (pat : List Char) : List Char → Bool
  | [] => charsStart pat []
  | c :: cs => charsStart pat (c :: cs) || charsHave pat cs

/-- JavaScript `s.includes(pat)`. -/
def strHas (s pat : String) : Bool := charsHave pat.data s.data

/-- Whitespace stripped by `String.prototype.trim` (the characters that occur
in the data this program handles). -/
def isJsSpace (c : Char) : Bool := c == ' ' || c == '\t' || c == '\n' || c == '\r'

/-- JavaScript `s.trim()` (kernel-computable model). -/
def jsTrim (s : String) : String :=
  ⟨((s.data.dropWhile isJsSpace).reverse.dropWhile isJsSpace).reverse⟩

/-- The record `fetchSingleUser` pushes into its output (src/base.ts lines
176-181).  Note: it carries no id field; the permalink id is only used for
deduplication. -/
structure TweetInfo where
  userId : String
  textContent : String
  time : String
  imageUrls : List String
deriving Repr, DecidableEq

/-- One rendered `article` node, abstracted to exactly the query results the
extraction callback of src/base.ts (lines 87-142) reads. -/
structure RawArticle where
  /-- whether the socialContext marker contains "Pinned" -/
  isPinned : Bool
  /-- the href of the first permalink (`a` with an href containing "/status/"), if any -/
  statusLink : Option String
  /-- whether a link whose href is exactly "/" ++ targetUserId exists in the article -/
  hasAuthorLink : Bool
  /-- the datetime attribute of the first time element carrying one, if present -/
  timeAttr : Option String
  /-- the textContent of the tweetText element, if present -/
  tweetText : Option String
  /-- the src attributes of the tweet photo img nodes, in document order -/
  photoSrcs : List String
deriving Repr, DecidableEq

/-- The intermediate object pushed by the extraction callback (src/base.ts
lines 129-136). -/
structure Candidate where
  id : String
  userId : String
  textContent : String
  time : String
  imageUrls : List String
  isPinned : Bool
deriving Repr, DecidableEq

/-- The truthy non-avatar image filter (src/base.ts lines 121-127): keep a
src that is nonempty and does not contain "profile_images". -/
def keepImageSrc (src : String) : Bool :=
  (src != "") && !(strHas src "profile_images")

/-- The per-article extraction callback (src/base.ts lines 87-142): `none`
models the three early returns (no permalink, no authorship link, no time
element). -/
def extractArticle (targetUserId : String) (a : RawArticle) : Option Candidate :=
  match a.statusLink with
  | none => none
  | some tweetId =>
    if !a.hasAuthorLink then none
    else
      match a.timeAttr with
      | none => none
      | some datetime =>
        some { id := tweetId
               userId := targetUserId
               textContent := jsTrim (a.tweetText.getD "")
               time := datetime
               imageUrls := a.photoSrcs.filter keepImageSrc
               isPinned := a.isPinned }

/-- The batched extraction over all rendered articles (skipped articles do
not contribute). -/
def extractTweets (targetUserId : String) (articles : List RawArticle) : List Candidate :=
  articles.filterMap (extractArticle targetUserId)

/-- The state local to one pagination round of `fetchSingleUser` together
with the run-level accumulators it mutates (src/base.ts lines 147-185):
`nonPinnedOldTweetCount` and `addedCount` are declared afresh inside the
while-loop body, `tweets`, `tweetIds` and `hasReachedStartTime` are
run-level. -/
structure RoundAcc where
  tweets : List TweetInfo
  tweetIds : List String
  nonPinnedOldTweetCount : Nat
  addedCount : Nat
  hasReachedStartTime : Bool
deriving Repr, DecidableEq

/-- Projection of a candidate onto the output record (src/base.ts lines
176-181). -/
def toTweetInfo (c : Candidate) : TweetInfo :=
  { userId := c.userId, textContent := c.textContent, time := c.time, imageUrls := c.imageUrls }

/-- Processing of one candidate inside the for-loop of src/base.ts lines
151-185 (without the break, which `processTweets` performs on the returned
flag). -/
def processTweet (pd : String → Option Int) (startTime : String) (startTimeMs : JsTime)
    (acc : RoundAcc) (c : Candidate) : RoundAcc :=
  if acc.tweetIds.contains c.id then acc
  else
    let acc1 := { acc with tweetIds := acc.tweetIds ++ [c.id] }
    if startTime != "" && jsLt (pd c.time) startTimeMs then
      if c.isPinned then acc1
      else
        let n := acc1.nonPinnedOldTweetCount + 1
        if 3 ≤ n then { acc1 with nonPinnedOldTweetCount := n, hasReachedStartTime := true }
        else { acc1 with nonPinnedOldTweetCount := n }
    else
      { acc1 with nonPinnedOldTweetCount := 0
                  tweets := acc1.tweets ++ [toTweetInfo c]
                  addedCount := acc1.addedCount + 1 }

/-- The for-loop of src/base.ts lines 151-185, including the break taken
right after `hasReachedStartTime` is set. -/
def processTweets (pd : String → Option Int) (startTime : String) (startTimeMs : JsTime)
    (acc : RoundAcc) : List Candidate → RoundAcc
  | [] => acc
  | c :: cs =>
    let acc' := processTweet pd startTime startTimeMs acc c
    if acc'.hasReachedStartTime then acc'
    else processTweets pd startTime startTimeMs acc' cs

/-- The run-level state of one `fetchSingleUser` invocation (src/base.ts
lines 66-73). -/
structure RunState where
  tweets : List TweetInfo
  tweetIds : List String
  scrollAttempts : Nat
  noNewTweetsCount : Nat
  hasReachedStartTime : Bool
deriving Repr, DecidableEq

/-- Round-local view of the run state: the two per-round counters start at
zero (they are declared inside the while-loop body, src/base.ts lines
148-149). -/
def roundAccOf (st : RunState) : RoundAcc :=
  { tweets := st.tweets, tweetIds := st.tweetIds, nonPinnedOldTweetCount := 0
    addedCount := 0, hasReachedStartTime := st.hasReachedStartTime }

/-- One body execution of the while loop (src/base.ts lines 75-196):
extraction, candidate processing, and the idle-streak bookkeeping of lines
187-196. -/
def runRound (pd : String → Option Int) (userId startTime : String) (startTimeMs : JsTime)
    (articles : List RawArticle) (st : RunState) : RunState :=
  let acc := processTweets pd startTime startTimeMs (roundAccOf st) (extractTweets userId articles)
  { tweets := acc.tweets
    tweetIds := acc.tweetIds
    scrollAttempts := st.scrollAttempts
    noNewTweetsCount := if acc.addedCount = 0 then st.noNewTweetsCount + 1 else 0
    hasReachedStartTime := acc.hasReachedStartTime }

/-- The scroll cap of src/base.ts line 71. -/
def maxScrollAttempts : Nat := 100

/-- The while loop of src/base.ts lines 75-211.  The `fuel` argument is only
a structural-recursion bound; the loop's own guard (`scrollAttempts <
maxScrollAttempts && !hasReachedStartTime`) is checked exactly as in the
source, and `fetchLoop_fuel_indifferent` below shows any fuel of at least
`maxScrollAttempts - scrollAttempts` yields the same result. -/
def fetchLoop (pd : String → Option Int) (userId startTime : String) (startTimeMs : JsTime)
    (rounds : Nat → List RawArticle) : Nat → RunState → RunState
  | 0, st => st
  | fuel + 1, st =>
    if st.scrollAttempts < maxScrollAttempts ∧ st.hasReachedStartTime = false then
      let st' := runRound pd userId startTime startTimeMs (rounds st.scrollAttempts) st
      if 3 ≤ st'.noNewTweetsCount then st'
      else if st'.hasReachedStartTime then st'
      else fetchLoop pd userId startTime startTimeMs rounds fuel
             { st' with scrollAttempts := st'.scrollAttempts + 1 }
    else st

/-- The value `startTime ? new Date(startTime).getTime() : 0` of src/base.ts
line 68. -/
def mkStartTimeMs (pd : String → Option Int) (startTime : String) : JsTime :=
  if startTime != "" then pd startTime else some 0

/-- Fresh run state created at the start of each invocation (src/base.ts
lines 66-73): the dedup set is scoped to one run. -/
def initRunState : RunState :=
  { tweets := [], tweetIds := [], scrollAttempts := 0, noNewTweetsCount := 0
    hasReachedStartTime := false }

/-- The pagination loop of `fetchSingleUser` (src/base.ts lines 40-222); the
returned list of the source function is the `tweets` field of the final
state. -/
def fetchSingleUser (pd : String → Option Int) (userId startTime : String)
    (rounds : Nat → List RawArticle) : RunState :=
  fetchLoop pd userId startTime (mkStartTimeMs pd startTime) rounds maxScrollAttempts initRunState

/-- One entry of the `userConfigs` argument of `fetchMultipleUser`. -/
structure UserConfig where
  userId : String
  startTime : String
deriving Repr, DecidableEq

/-- The per-user result of `fetchMultipleUser` (src/types.ts
`UserTweetsResult`): `none` models the `null` latest time. -/
structure UserTweetsResult where
  userId : String
  tweets : List TweetInfo
  latestTweetTime : Option String
deriving Repr, DecidableEq

/-- The options record of src/types.ts `FetchOptions`; the `beforeRetry`
hook is modelled by the outcome (`Except`) of each of its invocations. -/
structure FetchOptions where
  maxRetries : Option Nat
  beforeRetry : Option (String → Nat → String → Except String Unit)
  downloadImages : Option Bool
  downloadPath : Option String

/-- The numeric value the sort comparator of src/base.ts lines 259-261 reads
from a tweet.  On an unparseable time the source comparator returns NaN and
the engine's sort order is unspecified; the model fixes that unspecified
case by reading 0.  Theorems about the sort only assume parseable times. -/
def jsTimeVal (pd : String → Option Int) (t : TweetInfo) : Int :=
  (pd t.time).getD 0

/-- Stable insertion of a tweet into a descending-by-time list; `t` is placed
before the first element not newer than it. -/
def insertDesc (pd : String → Option Int) (t : TweetInfo) : List TweetInfo → List TweetInfo
  | [] => [t]
  | u :: us =>
    if jsTimeVal pd u ≤ jsTimeVal pd t then t :: u :: us
    else u :: insertDesc pd t us

/-- The stable sort `[...tweets].sort((a, b) => time b - time a)` of
src/base.ts lines 259-261 (descending publication time). -/
def sortDesc (pd : String → Option Int) : List TweetInfo → List TweetInfo
  | [] => []
  | t :: ts => insertDesc pd t (sortDesc pd ts)

/-- The latest-tweet-time computation of src/base.ts lines 256-263: `null`
when there are no tweets, else the time of the head of the descending sort. -/
def latestTweetTime (pd : String → Option Int) (tweets : List TweetInfo) : Option String :=
  if tweets.isEmpty then none
  else (sortDesc pd tweets).head?.map (fun t => t.time)

/-- The degraded result returned after every retry failed (src/base.ts lines
291-295). -/
def emptyResult (userId : String) : UserTweetsResult :=
  { userId := userId, tweets := [], latestTweetTime := none }

/-- The retry for-loop of one fetch task (src/base.ts lines 244-295).
`collect a` is the outcome of `fetchSingleUser` on attempt number `a`;
`remaining` counts the loop iterations still allowed (`maxRetries - attempt
+ 1`); `hookCalls` accumulates the number of `beforeRetry` invocations (the
hook's own outcome is discarded: the source catches and logs it). -/
def retryGo (pd : String → Option Int) (collect : Nat → Except String (List TweetInfo))
    (hook : Option (String → Nat → String → Except String Unit)) (maxRetries : Nat)
    (userId : String) : Nat → Nat → Nat → UserTweetsResult × Nat
  | _, 0, hookCalls => (emptyResult userId, hookCalls)
  | attempt, remaining + 1, hookCalls =>
    match collect attempt with
    | .ok tweets =>
      ({ userId := userId, tweets := tweets, latestTweetTime := latestTweetTime pd tweets },
       hookCalls)
    | .error err =>
      match hook with
      | some f =>
        if attempt < maxRetries then
          let _ := f userId attempt err
          retryGo pd collect hook maxRetries userId (attempt + 1) remaining (hookCalls + 1)
        else retryGo pd collect hook maxRetries userId (attempt + 1) remaining hookCalls
      | none => retryGo pd collect hook maxRetries userId (attempt + 1) remaining hookCalls

/-- One per-user fetch task (src/base.ts lines 240-296): attempts start at 1
and at most `maxRetries` of them run. -/
def fetchTask (pd : String → Option Int) (collect : Nat → Except String (List TweetInfo))
    (hook : Option (String → Nat → String → Except String Unit)) (maxRetries : Nat)
    (userId : String) : UserTweetsResult × Nat :=
  retryGo pd collect hook maxRetries userId 1 maxRetries 0

/-- The orchestrator `fetchMultipleUser` (src/base.ts lines 231-300):
`collect userId startTime attempt` is the outcome of the collector for that
job on that attempt.  `Promise.all` resolves in input order, which `List.map`
mirrors; the function is total, so no error ever reaches its caller. -/
def fetchMultipleUser (pd : String → Option Int)
    (collect : String → String → Nat → Except String (List TweetInfo))
    (options : Option FetchOptions) (userConfigs : List UserConfig) : List UserTweetsResult :=
  let maxRetries := (options.bind FetchOptions.maxRetries).getD 3
  let hook := options.bind FetchOptions.beforeRetry
  userConfigs.map fun cfg =>
    (fetchTask pd (collect cfg.userId cfg.startTime) hook maxRetries cfg.userId).fst

/-- Ghost observation: the hook-invocation counts of every job, in input
order (the trace the orchestrator produces by calling `beforeRetry`). -/
def fetchMultipleUserHookCalls (pd : String → Option Int)
    (collect : String → String → Nat → Except String (List TweetInfo))
    (options : Option FetchOptions) (userConfigs : List UserConfig) : List Nat :=
  let maxRetries := (options.bind FetchOptions.maxRetries).getD 3
  let hook := options.bind FetchOptions.beforeRetry
  userConfigs.map fun cfg =>
    (fetchTask pd (collect cfg.userId cfg.startTime) hook maxRetries cfg.userId).snd

/-- Node `path.posix.join` restricted to the two segments the downloader
joins (src image module, `path.posix.join(tweet.userId, filename)`). -/
def posixJoin (a b : String) : String :=
  if a = "" then b else if b = "" then a else a ++ "/" ++ b

/-- Node `path.extname` on a posix pathname: the suffix of the basename from
its last dot, empty when there is no dot or the only dot is the basename's
first character. -/
def extnameOf (p : String) : String :=
  let basename := (p.data.reverse.takeWhile (fun c => c != '/')).reverse
  let rev := basename.reverse
  let pre := rev.takeWhile (fun c => c != '.')
  if pre.length = rev.length then ""
  else if rev.length = pre.length + 1 then ""
  else ⟨'.' :: pre.reverse⟩

/-- The extension computation `getImageExtension` of the image module:
`urlPath` models `new URL(imageUrl).pathname` (`none` when the URL
constructor throws); an undetectable extension falls back to ".jpg". -/
def getImageExtension (urlPath : String → Option String) (imageUrl : String) : String :=
  match urlPath imageUrl with
  | some pathname =>
    let ext := extnameOf pathname
    if ext != "" then ext else ".jpg"
  | none => ".jpg"

/-- `createImageFilename` of the image module: epoch seconds from the
tweet's time, falling back to the current time (`nowMs`) when unparseable
(`Number.isFinite` is false exactly when the parse gave NaN); `Math.floor`
of a division is `Int.fdiv`. -/
def createImageFilename (pd : String → Option Int) (nowMs : Int)
    (urlPath : String → Option String) (tweetTime : String) (index : Nat)
    (imageUrl : String) : String :=
  let timestampSeconds : Int :=
    match pd tweetTime with
    | some millis => Int.fdiv millis 1000
    | none => Int.fdiv nowMs 1000
  toString timestampSeconds ++ "-" ++ toString index ++ getImageExtension urlPath imageUrl

/-- The per-image for-loop of `downloadTweetsWithPage`: `ok imageUrl` tells
whether the download-and-write of that URL succeeds; on success the local
reference `userId/filename` is pushed, on failure the original URL. -/
def downloadImagesLoop (pd : String → Option Int) (nowMs : Int)
    (urlPath : String → Option String) (ok : String → Bool)
    (userId tweetTime : String) : Nat → List String → List String
  | _, [] => []
  | index, imageUrl :: rest =>
    let filename := createImageFilename pd nowMs urlPath tweetTime (index + 1) imageUrl
    (if ok imageUrl then posixJoin userId filename else imageUrl)
      :: downloadImagesLoop pd nowMs urlPath ok userId tweetTime (index + 1) rest

/-- The per-tweet loop of `downloadTweetsWithPage`: a tweet with no images
is pushed unchanged, otherwise its image list is rewritten entry by entry. -/
def downloadTweetsWithPage (pd : String → Option Int) (nowMs : Int)
    (urlPath : String → Option String) (ok : String → Bool) :
    List TweetInfo → List TweetInfo
  | [] => []
  | tweet :: rest =>
    let tweet' :=
      if tweet.imageUrls.isEmpty then tweet
      else { tweet with
             imageUrls := downloadImagesLoop pd nowMs urlPath ok tweet.userId tweet.time 0
               tweet.imageUrls }
    tweet' :: downloadTweetsWithPage pd nowMs urlPath ok rest

/-- `transformTweetImages` (src/types.ts lines 825ff and, equivalently, the
`createTweetImageDownloader` dispatch of the image module): when
`options.downloadImages` is falsy the input is returned unchanged, else the
download pipeline runs. -/
def transformTweetImages (pd : String → Option Int) (nowMs : Int)
    (urlPath : String → Option String) (ok : String → Bool)
    (tweets : List TweetInfo) (options : FetchOptions) : List TweetInfo :=
  if options.downloadImages.getD false then downloadTweetsWithPage pd nowMs urlPath ok tweets
  else tweets

/-- Demo timestamp parser for concrete evaluations: it parses the small
digit strings used in the examples and treats every other string as NaN. -/
def demoParse : String → Option Int := fun s =>
  if s = "5" then some 5
  else if s = "7" then some 7
  else if s = "8" then some 8
  else if s = "9" then some 9
  else if s = "10" then some 10
  else if s = "11" then some 11
  else if s = "12" then some 12
  else if s = "20" then some 20
  else none

/-- Demo rendered article: a permalink, an authorship link, a datetime
attribute, some text and no photos. -/
def demoArticle (id tm : String) (pin : Bool) : RawArticle :=
  { isPinned := pin, statusLink := some id, hasAuthorLink := true,
    timeAttr := some tm, tweetText := some ("post " ++ id), photoSrcs := [] }

/-- Demo extracted candidate with the given id and time. -/
def demoCand (id tm : String) (pin : Bool) : Candidate :=
  { id := id, userId := "u", textContent := "", time := tm, imageUrls := [], isPinned := pin }

/-- Demo feed whose three stale non-pinned candidates span two pagination
rounds: two in round 0, one in round 1, nothing afterwards. -/
def demoRoundsSpanning : Nat → List RawArticle := fun r =>
  if r = 0 then [demoArticle "a" "5" false, demoArticle "b" "5" false]
  else if r = 1 then [demoArticle "c" "5" false]
  else []

/-- Demo feed whose single candidate carries an unparseable datetime. -/
def demoRoundsGarbage : Nat → List RawArticle := fun r =>
  if r = 0 then [demoArticle "g" "garbage" false] else []

/-- Demo feed realizing the specification's walkthrough scenario: boundary
10, discovery order times 12, 11, 9, 8, 7 and a pinned 20. -/
def demoRoundsMain : Nat → List RawArticle := fun r =>
  if r = 0 then
    [demoArticle "a" "12" false, demoArticle "b" "11" false, demoArticle "c" "9" false,
     demoArticle "d" "8" false, demoArticle "e" "7" false, demoArticle "f" "20" true]
  else []

/-- Demo tweet list for the orchestrator examples. -/
def demoTweets1 : List TweetInfo :=
  [{ userId := "u", textContent := "t", time := "12", imageUrls := [] }]

/-- Demo unsorted tweet list: times 11 then 12 in discovery order. -/
def demoTweetsPair : List TweetInfo :=
  [{ userId := "u", textContent := "", time := "11", imageUrls := [] },
   { userId := "u", textContent := "", time := "12", imageUrls := [] }]

/-- Demo collector oracle: the job for author "bad" fails on every attempt,
any other job succeeds immediately. -/
def demoCollect : String → String → Nat → Except String (List TweetInfo) := fun uid _ _ =>
  if uid = "bad" then Except.error "boom"
  else Except.ok demoTweets1

/-- Demo per-attempt oracle succeeding only on attempt 2. -/
def demoCollect2 : Nat → Except String (List TweetInfo) := fun a =>
  if a = 2 then Except.ok demoTweets1 else Except.error "boom"

/-- Demo per-attempt oracle that always fails. -/
def demoFail : Nat → Except String (List TweetInfo) := fun _ => Except.error "boom"

/-- Demo beforeRetry hook whose own execution fails. -/
def demoHook : String → Nat → String → Except String Unit := fun _ _ _ =>
  Except.error "hook boom"

/-- Demo beforeRetry hook that succeeds. -/
def demoHook2 : String → Nat → String → Except String Unit := fun _ _ _ => Except.ok ()

/-! ### Lemmas about the image materializer -/

theorem mapIdx_ext {α β : Type} (f g : Nat → α → β) (h : ∀ i a, f i a = g i a) :
    ∀ l : List α, l.mapIdx f = l.mapIdx g := by
  intro l
  induction l generalizing f g with
  | nil => simp
  | cons a as ih =>
    simp only [List.mapIdx_cons, h 0 a]
    rw [ih (fun i => f (i + 1)) (fun i => g (i + 1)) (fun i b => h (i + 1) b)]

theorem downloadImagesLoop_closed (pd : String → Option Int) (nowMs : Int)
    (urlPath : String → Option String) (ok : String → Bool) (userId tweetTime : String) :
    ∀ (urls : List String) (k : Nat),
      downloadImagesLoop pd nowMs urlPath ok userId tweetTime k urls =
        urls.mapIdx fun j imageUrl =>
          if ok imageUrl then
            posixJoin userId (createImageFilename pd nowMs urlPath tweetTime (k + j + 1) imageUrl)
          else imageUrl := by
  intro urls
  induction urls with
  | nil => intro k; simp [downloadImagesLoop]
  | cons u rest ih =>
    intro k
    simp only [downloadImagesLoop, List.mapIdx_cons, ih (k + 1)]
    have h0 : k + 0 + 1 = k + 1 := by omega
    rw [h0]
    congr 1
    apply mapIdx_ext
    intro i a
    have harith : k + 1 + i + 1 = k + (i + 1) + 1 := by omega
    rw [harith]

/-- C8 — When materialization is enabled, each image at 1-based ordinal i is
rewritten on success to the joined reference authorId/epochSeconds-i.ext
(epoch seconds from the post's publishedAt with a current-time fallback, the
extension from the URL path with a ".jpg" fallback) and retains its original
remote reference on failure, at the same position; no image entry is dropped
and no failure aborts sibling images or posts, so the output is the input
list mapped post-by-post with an image list of the same length and order. -/
theorem C8_materializer_per_image (pd : String → Option Int) (nowMs : Int)
    (urlPath : String → Option String) (ok : String → Bool) (tweets : List TweetInfo) :
    downloadTweetsWithPage pd nowMs urlPath ok tweets =
      (tweets.map fun t =>
        { t with imageUrls := t.imageUrls.mapIdx fun j imageUrl =>
            if ok imageUrl then
              posixJoin t.userId (createImageFilename pd nowMs urlPath t.time (j + 1) imageUrl)
            else imageUrl }) ∧
    (downloadTweetsWithPage pd nowMs urlPath ok tweets).length = tweets.length := by
  have main : downloadTweetsWithPage pd nowMs urlPath ok tweets =
      (tweets.map fun t =>
        { t with imageUrls := t.imageUrls.mapIdx fun j imageUrl =>
            if ok imageUrl then
              posixJoin t.userId (createImageFilename pd nowMs urlPath t.time (j + 1) imageUrl)
            else imageUrl }) := by
    induction tweets with
    | nil => simp [downloadTweetsWithPage]
    | cons t rest ih =>
      simp only [downloadTweetsWithPage, List.map_cons, ih]
      by_cases h : t.imageUrls.isEmpty
      · have hnil : t.imageUrls = [] := by
          cases hu : t.imageUrls with
          | nil => rfl
          | cons a as => rw [hu] at h; simp [List.isEmpty] at h
        cases t
        simp_all
      · have h01 : (downloadImagesLoop pd nowMs urlPath ok t.userId t.time 0 t.imageUrls) =
            t.imageUrls.mapIdx fun j imageUrl =>
              if ok imageUrl then
                posixJoin t.userId (createImageFilename pd nowMs urlPath t.time (j + 1) imageUrl)
              else imageUrl := by
          rw [downloadImagesLoop_closed]
          apply mapIdx_ext
          intro i a
          simp
        simp [h, h01]
  exact ⟨main, by rw [main]; simp⟩

/-- C9 — When the downloadImages flag is disabled (absent or false), the
image-materialization step returns its input unchanged. -/
theorem C9_materializer_disabled (pd : String → Option Int) (nowMs : Int)
    (urlPath : String → Option String) (ok : String → Bool) (tweets : List TweetInfo)
    (options : FetchOptions)
    (hoff : options.downloadImages = none ∨ options.downloadImages = some false) :
    transformTweetImages pd nowMs urlPath ok tweets options = tweets := by
  rcases hoff with h | h <;> simp [transformTweetImages, h]

/-- Concrete evaluation of the C9 theorem: a disabled configuration passes a
one-post list through untouched. -/
theorem C9_materializer_disabled_witness :
    transformTweetImages (fun _ => none) 0 (fun _ => none) (fun _ => false)
      [{ userId := "u", textContent := "x", time := "t", imageUrls := ["a"] }]
      { maxRetries := none, beforeRetry := none, downloadImages := some false,
        downloadPath := none } =
      [{ userId := "u", textContent := "x", time := "t", imageUrls := ["a"] }] :=
  C9_materializer_disabled (fun _ => none) 0 (fun _ => none) (fun _ => false)
    [{ userId := "u", textContent := "x", time := "t", imageUrls := ["a"] }]
    { maxRetries := none, beforeRetry := none, downloadImages := some false,
      downloadPath := none } (Or.inr rfl)

/-! ### Lemmas about the retry loop -/

theorem retryGo_allFail_fst (pd : String → Option Int)
    (collect : Nat → Except String (List TweetInfo))
    (hook : Option (String → Nat → String → Except String Unit)) (maxRetries : Nat)
    (uid : String) :
    ∀ (remaining attempt hookCalls : Nat),
      (∀ a, attempt ≤ a → a < attempt + remaining → ∃ e, collect a = Except.error e) →
      (retryGo pd collect hook maxRetries uid attempt remaining hookCalls).fst =
        emptyResult uid := by
  intro remaining
  induction remaining with
  | zero => intro attempt hookCalls _; rfl
  | succ r ih =>
    intro attempt hookCalls hfail
    obtain ⟨e, he⟩ := hfail attempt (Nat.le_refl _) (by omega)
    cases hook with
    | none =>
      simp only [retryGo, he]
      exact ih (attempt + 1) hookCalls fun a h1 h2 => hfail a (by omega) (by omega)
    | some f =>
      simp only [retryGo, he]
      by_cases hlt : attempt < maxRetries
      · simp only [if_pos hlt]
        exact ih (attempt + 1) (hookCalls + 1) fun a h1 h2 => hfail a (by omega) (by omega)
      · simp only [if_neg hlt]
        exact ih (attempt + 1) hookCalls fun a h1 h2 => hfail a (by omega) (by omega)

theorem retryGo_allFail_count (pd : String → Option Int)
    (collect : Nat → Except String (List TweetInfo))
    (f : String → Nat → String → Except String Unit) (maxRetries : Nat) (uid : String) :
    ∀ (remaining attempt hookCalls : Nat),
      attempt + remaining = maxRetries + 1 →
      (∀ a, attempt ≤ a → a ≤ maxRetries → ∃ e, collect a = Except.error e) →
      retryGo pd collect (some f) maxRetries uid attempt remaining hookCalls =
        (emptyResult uid, hookCalls + (remaining - 1)) := by
  intro remaining
  induction remaining with
  | zero => intro attempt hookCalls _ _; rfl
  | succ r ih =>
    intro attempt hookCalls hsum hfail
    obtain ⟨e, he⟩ := hfail attempt (Nat.le_refl _) (by omega)
    simp only [retryGo, he]
    by_cases hlt : attempt < maxRetries
    · simp only [if_pos hlt]
      have hr : 1 ≤ r := by omega
      rw [ih (attempt + 1) (hookCalls + 1) (by omega)
        (fun a h1 h2 => hfail a (by omega) h2)]
      have : hookCalls + 1 + (r - 1) = hookCalls + (r + 1 - 1) := by omega
      rw [this]
    · simp only [if_neg hlt]
      have hr0 : r = 0 := by omega
      subst hr0
      rfl

theorem retryGo_succeedAtLast (pd : String → Option Int)
    (collect : Nat → Except String (List TweetInfo))
    (f : String → Nat → String → Except String Unit) (maxRetries : Nat) (uid : String)
    (tws : List TweetInfo) :
    ∀ (remaining attempt hookCalls : Nat),
      attempt + remaining = maxRetries + 1 →
      attempt ≤ maxRetries →
      (∀ a, attempt ≤ a → a < maxRetries → ∃ e, collect a = Except.error e) →
      collect maxRetries = Except.ok tws →
      retryGo pd collect (some f) maxRetries uid attempt remaining hookCalls =
        ({ userId := uid, tweets := tws, latestTweetTime := latestTweetTime pd tws },
         hookCalls + (maxRetries - attempt)) := by
  intro remaining
  induction remaining with
  | zero => intro attempt hookCalls hsum hle _ _; omega
  | succ r ih =>
    intro attempt hookCalls hsum hle hfail hok
    by_cases hend : attempt = maxRetries
    · subst hend
      simp only [retryGo, hok, Nat.sub_self, Nat.add_zero]
    · have hlt : attempt < maxRetries := by omega
      obtain ⟨e, he⟩ := hfail attempt (Nat.le_refl _) hlt
      simp only [retryGo, he, if_pos hlt]
      rw [ih (attempt + 1) (hookCalls + 1) (by omega) (by omega)
        (fun a h1 h2 => hfail a (by omega) h2) hok]
      have : hookCalls + 1 + (maxRetries - (attempt + 1)) =
          hookCalls + (maxRetries - attempt) := by omega
      rw [this]

theorem retryGo_hook_outcome_irrelevant (pd : String → Option Int)
    (collect : Nat → Except String (List TweetInfo)) (maxRetries : Nat) (uid : String)
    (f g : String → Nat → String → Except String Unit) :
    ∀ (remaining attempt hookCalls : Nat),
      retryGo pd collect (some f) maxRetries uid attempt remaining hookCalls =
        retryGo pd collect (some g) maxRetries uid attempt remaining hookCalls := by
  intro remaining
  induction remaining with
  | zero => intro attempt hookCalls; rfl
  | succ r ih =>
    intro attempt hookCalls
    cases hc : collect attempt with
    | ok tws => simp only [retryGo, hc]
    | error e =>
      simp only [retryGo, hc]
      by_cases hlt : attempt < maxRetries
      · simp only [if_pos hlt]; exact ih (attempt + 1) (hookCalls + 1)
      · simp only [if_neg hlt]; exact ih (attempt + 1) hookCalls

theorem retryGo_fst_userId (pd : String → Option Int)
    (collect : Nat → Except String (List TweetInfo))
    (hook : Option (String → Nat → String → Except String Unit)) (maxRetries : Nat)
    (uid : String) :
    ∀ (remaining attempt hookCalls : Nat),
      ((retryGo pd collect hook maxRetries uid attempt remaining hookCalls).fst).userId =
        uid := by
  intro remaining
  induction remaining with
  | zero => intro attempt hookCalls; rfl
  | succ r ih =>
    intro attempt hookCalls
    cases hc : collect attempt with
    | ok tws => simp only [retryGo, hc]
    | error e =>
      cases hook with
      | none => simp only [retryGo, hc]; exact ih (attempt + 1) hookCalls
      | some f =>
        simp only [retryGo, hc]
        by_cases hlt : attempt < maxRetries
        · simp only [if_pos hlt]; exact ih (attempt + 1) (hookCalls + 1)
        · simp only [if_neg hlt]; exact ih (attempt + 1) hookCalls

/-- C1 — The orchestrator returns exactly one result per input job, in input
order, with the i-th result carrying the i-th job's userId; a job whose
attempts are all exhausted yields the degraded empty record.  (The model is
a total function, so no exception ever reaches the caller by construction:
every collector failure is consumed by the retry loop.) -/
theorem C1_orchestrator_shape (pd : String → Option Int)
    (collect : String → String → Nat → Except String (List TweetInfo))
    (options : Option FetchOptions) (userConfigs : List UserConfig) :
    (fetchMultipleUser pd collect options userConfigs).length = userConfigs.length ∧
    (∀ i (hi : i < userConfigs.length)
       (hi2 : i < (fetchMultipleUser pd collect options userConfigs).length),
       ((fetchMultipleUser pd collect options userConfigs).get ⟨i, hi2⟩).userId =
         (userConfigs.get ⟨i, hi⟩).userId) ∧
    (∀ i (hi : i < userConfigs.length)
       (hi2 : i < (fetchMultipleUser pd collect options userConfigs).length),
       (∀ a, 1 ≤ a → a ≤ (Option.bind options FetchOptions.maxRetries).getD 3 →
         ∃ e, collect (userConfigs.get ⟨i, hi⟩).userId (userConfigs.get ⟨i, hi⟩).startTime a =
           Except.error e) →
       (fetchMultipleUser pd collect options userConfigs).get ⟨i, hi2⟩ =
         emptyResult (userConfigs.get ⟨i, hi⟩).userId) := by
  refine ⟨by simp [fetchMultipleUser], ?_, ?_⟩
  · intro i hi hi2
    simp only [fetchMultipleUser, List.get_eq_getElem, List.getElem_map]
    exact retryGo_fst_userId pd _ _ _ _ _ 1 0
  · intro i hi hi2 hfail
    simp only [fetchMultipleUser, List.get_eq_getElem, List.getElem_map]
    have := retryGo_allFail_fst pd
      (collect (userConfigs[i]).userId (userConfigs[i]).startTime)
      (Option.bind options FetchOptions.beforeRetry)
      ((Option.bind options FetchOptions.maxRetries).getD 3)
      (userConfigs[i]).userId
      ((Option.bind options FetchOptions.maxRetries).getD 3) 1 0
      (fun a h1 h2 => hfail a h1 (by omega))
    simpa [fetchTask] using this

/-- C4 — Under a policy of maxAttempts = maxRetries with the hook provided:
failing on attempts 1..maxRetries-1 and succeeding on attempt maxRetries
returns the successful data with the hook invoked exactly maxRetries - 1
times; failing on all maxRetries attempts yields the degraded empty record
(again with maxRetries - 1 hook invocations); and the hook's own outcome
never influences the loop (its failure is caught), so the task result is
the same for any two hook behaviours. -/
theorem C4_retry_semantics (pd : String → Option Int)
    (collect : Nat → Except String (List TweetInfo)) (maxRetries : Nat) (uid : String)
    (f : String → Nat → String → Except String Unit) :
    (∀ tws, 1 ≤ maxRetries →
      (∀ a, 1 ≤ a → a < maxRetries → ∃ e, collect a = Except.error e) →
      collect maxRetries = Except.ok tws →
      fetchTask pd collect (some f) maxRetries uid =
        ({ userId := uid, tweets := tws, latestTweetTime := latestTweetTime pd tws },
         maxRetries - 1)) ∧
    ((∀ a, 1 ≤ a → a ≤ maxRetries → ∃ e, collect a = Except.error e) →
      fetchTask pd collect (some f) maxRetries uid = (emptyResult uid, maxRetries - 1)) ∧
    (∀ g, fetchTask pd collect (some f) maxRetries uid =
      fetchTask pd collect (some g) maxRetries uid) := by
  refine ⟨?_, ?_, ?_⟩
  · intro tws hM hfail hok
    unfold fetchTask
    rw [retryGo_succeedAtLast pd collect f maxRetries uid tws maxRetries 1 0 (by omega)
      hM (fun a h1 h2 => hfail a h1 h2) hok]
    simp
  · intro hfail
    unfold fetchTask
    rw [retryGo_allFail_count pd collect f maxRetries uid maxRetries 1 0 (by omega)
      (fun a h1 h2 => hfail a h1 h2)]
    simp
  · intro g
    unfold fetchTask
    exact retryGo_hook_outcome_irrelevant pd collect maxRetries uid f g maxRetries 1 0

/-! ### Lemmas about the descending sort and the latest-time computation -/

theorem mem_insertDesc (pd : String → Option Int) (t x : TweetInfo) :
    ∀ l : List TweetInfo, x ∈ insertDesc pd t l ↔ x = t ∨ x ∈ l := by
  intro l
  induction l with
  | nil => simp [insertDesc]
  | cons u us ih =>
    simp only [insertDesc]
    by_cases h : jsTimeVal pd u ≤ jsTimeVal pd t
    · simp only [if_pos h, List.mem_cons]
    · simp only [if_neg h, List.mem_cons, ih]
      tauto

theorem insertDesc_ne_nil (pd : String → Option Int) (t : TweetInfo) (l : List TweetInfo) :
    insertDesc pd t l ≠ [] := by
  cases l with
  | nil => simp [insertDesc]
  | cons u us =>
    simp only [insertDesc]
    by_cases h : jsTimeVal pd u ≤ jsTimeVal pd t <;> simp [h]

theorem pairwise_insertDesc (pd : String → Option Int) (t : TweetInfo) :
    ∀ l : List TweetInfo,
      l.Pairwise (fun a b => jsTimeVal pd b ≤ jsTimeVal pd a) →
      (insertDesc pd t l).Pairwise (fun a b => jsTimeVal pd b ≤ jsTimeVal pd a) := by
  intro l
  induction l with
  | nil => intro _; simp [insertDesc]
  | cons u us ih =>
    intro hp
    rw [List.pairwise_cons] at hp
    obtain ⟨hu, hus⟩ := hp
    simp only [insertDesc]
    by_cases h : jsTimeVal pd u ≤ jsTimeVal pd t
    · rw [if_pos h, List.pairwise_cons]
      refine ⟨?_, List.pairwise_cons.mpr ⟨hu, hus⟩⟩
      intro y hy
      rcases List.mem_cons.mp hy with hy | hy
      · subst hy; exact h
      · exact le_trans (hu y hy) h
    · rw [if_neg h, List.pairwise_cons]
      constructor
      · intro y hy
        rcases (mem_insertDesc pd t y us).mp hy with hy | hy
        · subst hy; omega
        · exact hu y hy
      · exact ih hus

theorem pairwise_sortDesc (pd : String → Option Int) :
    ∀ l : List TweetInfo,
      (sortDesc pd l).Pairwise (fun a b => jsTimeVal pd b ≤ jsTimeVal pd a) := by
  intro l
  induction l with
  | nil => simp [sortDesc]
  | cons t ts ih => exact pairwise_insertDesc pd t _ ih

theorem mem_sortDesc (pd : String → Option Int) (x : TweetInfo) :
    ∀ l : List TweetInfo, x ∈ sortDesc pd l ↔ x ∈ l := by
  intro l
  induction l with
  | nil => simp [sortDesc]
  | cons t ts ih =>
    simp only [sortDesc, mem_insertDesc, List.mem_cons, ih]

/-- C5 — latestTweetTime is null exactly when the post list is empty, and on
a nonempty list of posts with parseable times it is the time of a post whose
parsed publishedAt is maximal over the whole list, regardless of discovery
order. -/
theorem C5_latest_is_max (pd : String → Option Int) (tweets : List TweetInfo)
    (hp : ∀ t ∈ tweets, (pd t.time).isSome) :
    (latestTweetTime pd tweets = none ↔ tweets = []) ∧
    (tweets ≠ [] →
      ∃ t vt, t ∈ tweets ∧ latestTweetTime pd tweets = some t.time ∧
        pd t.time = some vt ∧
        ∀ u ∈ tweets, ∀ vu, pd u.time = some vu → vu ≤ vt) := by
  cases tweets with
  | nil =>
    refine ⟨by simp [latestTweetTime], ?_⟩
    intro h; exact absurd rfl h
  | cons t0 ts =>
    have hne : insertDesc pd t0 (sortDesc pd ts) ≠ [] := insertDesc_ne_nil pd t0 _
    obtain ⟨h, rest, hcons⟩ : ∃ h rest, insertDesc pd t0 (sortDesc pd ts) = h :: rest := by
      cases hc : insertDesc pd t0 (sortDesc pd ts) with
      | nil => exact absurd hc hne
      | cons a as => exact ⟨a, as, rfl⟩
    have hlat : latestTweetTime pd (t0 :: ts) = some h.time := by
      simp [latestTweetTime, sortDesc, hcons]
    have hmemh : h ∈ t0 :: ts := by
      have : h ∈ insertDesc pd t0 (sortDesc pd ts) := by rw [hcons]; exact List.mem_cons_self _ _
      have : h ∈ sortDesc pd (t0 :: ts) := by simpa [sortDesc] using this
      exact (mem_sortDesc pd h (t0 :: ts)).mp this
    refine ⟨by simp [hlat], ?_⟩
    intro _
    obtain ⟨vt, hvt⟩ := Option.isSome_iff_exists.mp (hp h hmemh)
    refine ⟨h, vt, hmemh, hlat, hvt, ?_⟩
    intro u hu vu hvu
    have hpair : (h :: rest).Pairwise (fun a b => jsTimeVal pd b ≤ jsTimeVal pd a) := by
      have := pairwise_sortDesc pd (t0 :: ts)
      simpa [sortDesc, hcons] using this
    have husort : u ∈ h :: rest := by
      have : u ∈ sortDesc pd (t0 :: ts) := (mem_sortDesc pd u (t0 :: ts)).mpr hu
      simpa [sortDesc, hcons] using this
    have hle : jsTimeVal pd u ≤ jsTimeVal pd h := by
      rcases List.mem_cons.mp husort with hcase | hcase
      · subst hcase; exact le_refl _
      · exact (List.pairwise_cons.mp hpair).1 u hcase
    simpa [jsTimeVal, hvt, hvu] using hle

/-! ### Case lemmas for one candidate-processing step -/

theorem processTweet_seen (pd : String → Option Int) (sT : String) (ms : JsTime)
    (acc : RoundAcc) (c : Candidate) (h : acc.tweetIds.contains c.id = true) :
    processTweet pd sT ms acc c = acc := by
  have hm : c.id ∈ acc.tweetIds := by simpa using h
  simp [processTweet, hm]

theorem processTweet_fresh_inScope (pd : String → Option Int) (sT : String) (ms : JsTime)
    (acc : RoundAcc) (c : Candidate) (h1 : acc.tweetIds.contains c.id = false)
    (h2 : (sT != "" && jsLt (pd c.time) ms) = false) :
    processTweet pd sT ms acc c =
      { acc with tweetIds := acc.tweetIds ++ [c.id], nonPinnedOldTweetCount := 0,
                 tweets := acc.tweets ++ [toTweetInfo c], addedCount := acc.addedCount + 1 } := by
  simp only [processTweet]
  simp at h2
  rw [if_neg (by simpa using h1), if_neg (by simpa using h2)]

theorem processTweet_fresh_stale_pinned (pd : String → Option Int) (sT : String) (ms : JsTime)
    (acc : RoundAcc) (c : Candidate) (h1 : acc.tweetIds.contains c.id = false)
    (h2 : (sT != "" && jsLt (pd c.time) ms) = true) (h3 : c.isPinned = true) :
    processTweet pd sT ms acc c = { acc with tweetIds := acc.tweetIds ++ [c.id] } := by
  simp only [processTweet]
  rw [if_neg (by simpa using h1), if_pos h2, if_pos h3]

theorem processTweet_fresh_stale_nonpinned (pd : String → Option Int) (sT : String) (ms : JsTime)
    (acc : RoundAcc) (c : Candidate) (h1 : acc.tweetIds.contains c.id = false)
    (h2 : (sT != "" && jsLt (pd c.time) ms) = true) (h3 : c.isPinned = false)
    (hflag : acc.hasReachedStartTime = false) :
    processTweet pd sT ms acc c =
      { acc with tweetIds := acc.tweetIds ++ [c.id]
                 nonPinnedOldTweetCount := acc.nonPinnedOldTweetCount + 1
                 hasReachedStartTime := decide (3 ≤ acc.nonPinnedOldTweetCount + 1) } := by
  simp only [processTweet]
  rw [if_neg (by simpa using h1), if_pos h2, if_neg (by simp [h3])]
  by_cases h4 : 3 ≤ acc.nonPinnedOldTweetCount + 1
  · rw [if_pos h4]; simp [h4]
  · rw [if_neg h4]; simp [h4, hflag]

theorem tweetIds_processTweet (pd : String → Option Int) (sT : String) (ms : JsTime)
    (acc : RoundAcc) (c : Candidate) :
    (processTweet pd sT ms acc c).tweetIds = acc.tweetIds ∨
      (processTweet pd sT ms acc c).tweetIds = acc.tweetIds ++ [c.id] := by
  by_cases h1 : acc.tweetIds.contains c.id
  · left; rw [processTweet_seen pd sT ms acc c h1]
  · rw [Bool.not_eq_true] at h1
    by_cases h2 : (sT != "" && jsLt (pd c.time) ms)
    · by_cases h3 : c.isPinned
      · right; rw [processTweet_fresh_stale_pinned pd sT ms acc c h1 h2 h3]
      · rw [Bool.not_eq_true] at h3
        right
        simp only [processTweet]
        rw [if_neg (by simpa using h1), if_pos h2, if_neg (by simp [h3])]
        by_cases h4 : 3 ≤ acc.nonPinnedOldTweetCount + 1
        · rw [if_pos h4]
        · rw [if_neg h4]
    · rw [Bool.not_eq_true] at h2
      right; rw [processTweet_fresh_inScope pd sT ms acc c h1 h2]

theorem mem_tweetIds_processTweet (pd : String → Option Int) (sT : String) (ms : JsTime)
    (acc : RoundAcc) (c : Candidate) (x : String) (hx : x ∈ acc.tweetIds) :
    x ∈ (processTweet pd sT ms acc c).tweetIds := by
  rcases tweetIds_processTweet pd sT ms acc c with h | h <;> rw [h] <;> simp [hx]

theorem mem_tweetIds_processTweets (pd : String → Option Int) (sT : String) (ms : JsTime)
    (x : String) :
    ∀ (l : List Candidate) (acc : RoundAcc), x ∈ acc.tweetIds →
      x ∈ (processTweets pd sT ms acc l).tweetIds := by
  intro l
  induction l with
  | nil => intro acc hx; exact hx
  | cons c cs ih =>
    intro acc hx
    simp only [processTweets]
    have hx' := mem_tweetIds_processTweet pd sT ms acc c x hx
    by_cases h : (processTweet pd sT ms acc c).hasReachedStartTime
    · simp only [h, if_true]; exact hx'
    · simp only [h, if_false]; exact ih _ hx'

theorem processTweet_fresh_stale_np_fire (pd : String → Option Int) (sT : String) (ms : JsTime)
    (acc : RoundAcc) (c : Candidate) (h1 : acc.tweetIds.contains c.id = false)
    (h2 : (sT != "" && jsLt (pd c.time) ms) = true) (h3 : c.isPinned = false)
    (h4 : 3 ≤ acc.nonPinnedOldTweetCount + 1) :
    processTweet pd sT ms acc c =
      { acc with tweetIds := acc.tweetIds ++ [c.id]
                 nonPinnedOldTweetCount := acc.nonPinnedOldTweetCount + 1
                 hasReachedStartTime := true } := by
  simp only [processTweet]
  rw [if_neg (by simpa using h1), if_pos h2, if_neg (by simp [h3]), if_pos h4]

theorem processTweet_fresh_stale_np_nofire (pd : String → Option Int) (sT : String) (ms : JsTime)
    (acc : RoundAcc) (c : Candidate) (h1 : acc.tweetIds.contains c.id = false)
    (h2 : (sT != "" && jsLt (pd c.time) ms) = true) (h3 : c.isPinned = false)
    (h4 : ¬ 3 ≤ acc.nonPinnedOldTweetCount + 1) :
    processTweet pd sT ms acc c =
      { acc with tweetIds := acc.tweetIds ++ [c.id]
                 nonPinnedOldTweetCount := acc.nonPinnedOldTweetCount + 1 } := by
  simp only [processTweet]
  rw [if_neg (by simpa using h1), if_pos h2, if_neg (by simp [h3]), if_neg h4]

/-- Every record appended while processing a candidate list comes from a
sublist of newly-deduplicated candidates with pairwise distinct ids, each of
which ends up registered in the seen-id set. -/
theorem processTweets_ghost (pd : String → Option Int) (sT : String) (ms : JsTime) :
    ∀ (l : List Candidate) (acc : RoundAcc),
      ∃ sel : List Candidate,
        sel.Sublist l ∧
        (processTweets pd sT ms acc l).tweets = acc.tweets ++ sel.map toTweetInfo ∧
        (sel.map Candidate.id).Nodup ∧
        (∀ c ∈ sel, c.id ∉ acc.tweetIds) ∧
        (∀ c ∈ sel, c.id ∈ (processTweets pd sT ms acc l).tweetIds) := by
  intro l
  induction l with
  | nil =>
    intro acc
    exact ⟨[], List.nil_sublist _, by simp [processTweets], by simp, by simp, by simp⟩
  | cons c cs ih =>
    intro acc
    by_cases h1 : acc.tweetIds.contains c.id
    · have hstep := processTweet_seen pd sT ms acc c h1
      simp only [processTweets, hstep]
      by_cases hf : acc.hasReachedStartTime
      · exact ⟨[], List.nil_sublist _, by simp [hf], by simp, by simp, by simp⟩
      · obtain ⟨sel, hsub, htw, hnd, hfr, hmem⟩ := ih acc
        refine ⟨sel, hsub.cons _, ?_, hnd, hfr, ?_⟩
        · simpa [hf] using htw
        · simpa [hf] using hmem
    · rw [Bool.not_eq_true] at h1
      by_cases h2 : (sT != "" && jsLt (pd c.time) ms)
      · by_cases h3 : c.isPinned
        · -- fresh, stale, pinned: id registered, nothing appended, flag untouched
          have hstep := processTweet_fresh_stale_pinned pd sT ms acc c h1 h2 h3
          simp only [processTweets, hstep]
          by_cases hf : acc.hasReachedStartTime
          · exact ⟨[], List.nil_sublist _, by simp [hf], by simp, by simp, by simp⟩
          · obtain ⟨sel, hsub, htw, hnd, hfr, hmem⟩ :=
              ih { acc with tweetIds := acc.tweetIds ++ [c.id] }
            refine ⟨sel, hsub.cons _, ?_, hnd, ?_, ?_⟩
            · simpa [hf] using htw
            · intro c' hc'
              have := hfr c' hc'
              simp only [List.mem_append, List.mem_singleton] at this
              intro hmemacc
              exact this (Or.inl hmemacc)
            · simpa [hf] using hmem
        · rw [Bool.not_eq_true] at h3
          by_cases h4 : 3 ≤ acc.nonPinnedOldTweetCount + 1
          · -- fresh, stale, non-pinned, streak fires: stop, nothing appended
            have hstep := processTweet_fresh_stale_np_fire pd sT ms acc c h1 h2 h3 h4
            simp only [processTweets, hstep]
            exact ⟨[], List.nil_sublist _, by simp, by simp, by simp, by simp⟩
          · -- fresh, stale, non-pinned, streak below 3: id registered, nothing appended
            have hstep := processTweet_fresh_stale_np_nofire pd sT ms acc c h1 h2 h3 h4
            simp only [processTweets, hstep]
            by_cases hf : acc.hasReachedStartTime
            · exact ⟨[], List.nil_sublist _, by simp [hf], by simp, by simp, by simp⟩
            · obtain ⟨sel, hsub, htw, hnd, hfr, hmem⟩ :=
                ih { acc with tweetIds := acc.tweetIds ++ [c.id]
                              nonPinnedOldTweetCount := acc.nonPinnedOldTweetCount + 1 }
              refine ⟨sel, hsub.cons _, ?_, hnd, ?_, ?_⟩
              · simpa [hf] using htw
              · intro c' hc'
                have := hfr c' hc'
                simp only [List.mem_append, List.mem_singleton] at this
                intro hmemacc
                exact this (Or.inl hmemacc)
              · simpa [hf] using hmem
      · rw [Bool.not_eq_true] at h2
        -- fresh, in scope: the record is appended
        have hstep := processTweet_fresh_inScope pd sT ms acc c h1 h2
        simp only [processTweets, hstep]
        by_cases hf : acc.hasReachedStartTime
        · refine ⟨[c], List.Sublist.cons₂ c (List.nil_sublist cs), by simp [hf], by simp,
            ?_, by simp [hf]⟩
          intro c' hc'
          rw [List.mem_singleton] at hc'
          subst hc'
          simpa using h1
        · obtain ⟨sel, hsub, htw, hnd, hfr, hmem⟩ :=
            ih { acc with tweetIds := acc.tweetIds ++ [c.id], nonPinnedOldTweetCount := 0,
                          tweets := acc.tweets ++ [toTweetInfo c],
                          addedCount := acc.addedCount + 1 }
          have hf' : acc.hasReachedStartTime = false := by simpa using hf
          rw [hf'] at htw hfr hmem ⊢
          refine ⟨c :: sel, List.Sublist.cons₂ c hsub, ?_, ?_, ?_, ?_⟩
          · rw [if_neg (by simp), htw]
            simp
          · rw [List.map_cons, List.nodup_cons]
            refine ⟨?_, hnd⟩
            intro hin
            obtain ⟨c', hc', hid⟩ := List.mem_map.mp hin
            have := hfr c' hc'
            simp only [List.mem_append, List.mem_singleton] at this
            exact this (Or.inr hid)
          · intro c' hc'
            rcases List.mem_cons.mp hc' with hc' | hc'
            · subst hc'; simpa using h1
            · have := hfr c' hc'
              simp only [List.mem_append, List.mem_singleton] at this
              intro hmemacc
              exact this (Or.inl hmemacc)
          · intro c' hc'
            rcases List.mem_cons.mp hc' with hc' | hc'
            · subst hc'
              rw [if_neg (by simp)]
              exact mem_tweetIds_processTweets pd sT ms c'.id cs _ (by simp)
            · rw [if_neg (by simp)]
              exact hmem c' hc'

/-! ### Extraction validation and output provenance -/

theorem extractArticle_isSome_iff (uid : String) (a : RawArticle) :
    (extractArticle uid a).isSome = true ↔
      (a.statusLink.isSome = true ∧ a.hasAuthorLink = true ∧ a.timeAttr.isSome = true) := by
  unfold extractArticle
  cases a.statusLink <;> cases a.timeAttr <;> by_cases h : a.hasAuthorLink <;> simp [h]

theorem tweets_processTweets_from (pd : String → Option Int) (sT : String) (ms : JsTime)
    (l : List Candidate) (acc : RoundAcc) (t : TweetInfo)
    (ht : t ∈ (processTweets pd sT ms acc l).tweets) :
    t ∈ acc.tweets ∨ ∃ c ∈ l, t = toTweetInfo c := by
  obtain ⟨sel, hsub, htw, _, _, _⟩ := processTweets_ghost pd sT ms l acc
  rw [htw] at ht
  rcases List.mem_append.mp ht with h | h
  · exact Or.inl h
  · obtain ⟨c, hc, hct⟩ := List.mem_map.mp h
    exact Or.inr ⟨c, hsub.subset hc, hct.symm⟩

theorem runRound_provenance (pd : String → Option Int) (uid sT : String) (ms : JsTime)
    (articles : List RawArticle) (st : RunState) (t : TweetInfo)
    (ht : t ∈ (runRound pd uid sT ms articles st).tweets) :
    t ∈ st.tweets ∨ ∃ c ∈ extractTweets uid articles, t = toTweetInfo c := by
  simp only [runRound] at ht
  exact tweets_processTweets_from pd sT ms _ (roundAccOf st) t ht

theorem mem_tweetIds_runRound (pd : String → Option Int) (uid sT : String) (ms : JsTime)
    (articles : List RawArticle) (st : RunState) (x : String) (hx : x ∈ st.tweetIds) :
    x ∈ (runRound pd uid sT ms articles st).tweetIds := by
  simp only [runRound]
  exact mem_tweetIds_processTweets pd sT ms x _ (roundAccOf st) hx

theorem mem_tweetIds_fetchLoop (pd : String → Option Int) (uid sT : String) (ms : JsTime)
    (rounds : Nat → List RawArticle) (x : String) :
    ∀ (fuel : Nat) (st : RunState), x ∈ st.tweetIds →
      x ∈ (fetchLoop pd uid sT ms rounds fuel st).tweetIds := by
  intro fuel
  induction fuel with
  | zero => intro st hx; exact hx
  | succ f ih =>
    intro st hx
    simp only [fetchLoop]
    by_cases hg : st.scrollAttempts < maxScrollAttempts ∧ st.hasReachedStartTime = false
    · rw [if_pos hg]
      have hx' := mem_tweetIds_runRound pd uid sT ms (rounds st.scrollAttempts) st x hx
      by_cases hb1 : 3 ≤ (runRound pd uid sT ms (rounds st.scrollAttempts) st).noNewTweetsCount
      · rw [if_pos hb1]; exact hx'
      · rw [if_neg hb1]
        by_cases hb2 : (runRound pd uid sT ms (rounds st.scrollAttempts) st).hasReachedStartTime
        · rw [if_pos hb2]; exact hx'
        · rw [if_neg hb2]; exact ih _ hx'
    · rw [if_neg hg]; exact hx

theorem fetchLoop_provenance (pd : String → Option Int) (uid sT : String) (ms : JsTime)
    (rounds : Nat → List RawArticle) (t : TweetInfo) :
    ∀ (fuel : Nat) (st : RunState),
      t ∈ (fetchLoop pd uid sT ms rounds fuel st).tweets →
      t ∈ st.tweets ∨ ∃ r c, c ∈ extractTweets uid (rounds r) ∧ t = toTweetInfo c := by
  intro fuel
  induction fuel with
  | zero => intro st ht; exact Or.inl ht
  | succ f ih =>
    intro st ht
    simp only [fetchLoop] at ht
    by_cases hg : st.scrollAttempts < maxScrollAttempts ∧ st.hasReachedStartTime = false
    · rw [if_pos hg] at ht
      by_cases hb1 : 3 ≤ (runRound pd uid sT ms (rounds st.scrollAttempts) st).noNewTweetsCount
      · rw [if_pos hb1] at ht
        rcases runRound_provenance pd uid sT ms _ st t ht with h | ⟨c, hc, hct⟩
        · exact Or.inl h
        · exact Or.inr ⟨st.scrollAttempts, c, hc, hct⟩
      · rw [if_neg hb1] at ht
        by_cases hb2 : (runRound pd uid sT ms (rounds st.scrollAttempts) st).hasReachedStartTime
        · rw [if_pos hb2] at ht
          rcases runRound_provenance pd uid sT ms _ st t ht with h | ⟨c, hc, hct⟩
          · exact Or.inl h
          · exact Or.inr ⟨st.scrollAttempts, c, hc, hct⟩
        · rw [if_neg hb2] at ht
          rcases ih _ ht with h | h
          · rcases runRound_provenance pd uid sT ms _ st t h with h' | ⟨c, hc, hct⟩
            · exact Or.inl h'
            · exact Or.inr ⟨st.scrollAttempts, c, hc, hct⟩
          · exact Or.inr h
    · rw [if_neg hg] at ht
      exact Or.inl ht

theorem fetchLoop_ghost (pd : String → Option Int) (uid sT : String) (ms : JsTime)
    (rounds : Nat → List RawArticle) :
    ∀ (fuel : Nat) (st : RunState) (cs0 : List Candidate),
      st.tweets = cs0.map toTweetInfo →
      (cs0.map Candidate.id).Nodup →
      (∀ c ∈ cs0, c.id ∈ st.tweetIds) →
      ∃ cs : List Candidate,
        (fetchLoop pd uid sT ms rounds fuel st).tweets = cs.map toTweetInfo ∧
        (cs.map Candidate.id).Nodup ∧
        ∀ c ∈ cs, c.id ∈ (fetchLoop pd uid sT ms rounds fuel st).tweetIds := by
  intro fuel
  induction fuel with
  | zero => intro st cs0 h1 h2 h3; exact ⟨cs0, h1, h2, h3⟩
  | succ f ih =>
    intro st cs0 h1 h2 h3
    simp only [fetchLoop]
    by_cases hg : st.scrollAttempts < maxScrollAttempts ∧ st.hasReachedStartTime = false
    · rw [if_pos hg]
      obtain ⟨sel, hsub, htw, hnd, hfr, hmem⟩ :=
        processTweets_ghost pd sT ms (extractTweets uid (rounds st.scrollAttempts))
          (roundAccOf st)
      have hst'tweets : (runRound pd uid sT ms (rounds st.scrollAttempts) st).tweets =
          (cs0 ++ sel).map toTweetInfo := by
        simp only [runRound]
        rw [htw]
        simp only [roundAccOf, h1, List.map_append]
      have hst'nodup : ((cs0 ++ sel).map Candidate.id).Nodup := by
        rw [List.map_append, List.nodup_append]
        refine ⟨h2, hnd, ?_⟩
        intro x hx hx'
        obtain ⟨c, hc, hcx⟩ := List.mem_map.mp hx
        obtain ⟨c', hc', hcx'⟩ := List.mem_map.mp hx'
        have hid : c'.id ∉ st.tweetIds := by
          have := hfr c' hc'
          simpa [roundAccOf] using this
        apply hid
        have hcc : c'.id = c.id := by rw [hcx', hcx]
        rw [hcc]
        exact h3 c hc
      have hst'mem : ∀ c ∈ cs0 ++ sel,
          c.id ∈ (runRound pd uid sT ms (rounds st.scrollAttempts) st).tweetIds := by
        intro c hc
        rcases List.mem_append.mp hc with hc | hc
        · exact mem_tweetIds_runRound pd uid sT ms _ st c.id (h3 c hc)
        · have := hmem c hc
          simp only [runRound]
          exact this
      by_cases hb1 : 3 ≤ (runRound pd uid sT ms (rounds st.scrollAttempts) st).noNewTweetsCount
      · rw [if_pos hb1]
        exact ⟨cs0 ++ sel, hst'tweets, hst'nodup, hst'mem⟩
      · rw [if_neg hb1]
        by_cases hb2 : (runRound pd uid sT ms (rounds st.scrollAttempts) st).hasReachedStartTime
        · rw [if_pos hb2]
          exact ⟨cs0 ++ sel, hst'tweets, hst'nodup, hst'mem⟩
        · rw [if_neg hb2]
          exact ih _ (cs0 ++ sel) hst'tweets hst'nodup hst'mem
    · rw [if_neg hg]
      exact ⟨cs0, h1, h2, h3⟩

/-! ### Termination and stop-condition lemmas for the pagination loop -/

theorem runRound_scrollAttempts (pd : String → Option Int) (uid sT : String) (ms : JsTime)
    (articles : List RawArticle) (st : RunState) :
    (runRound pd uid sT ms articles st).scrollAttempts = st.scrollAttempts := rfl

theorem fetchLoop_exit (pd : String → Option Int) (uid sT : String) (ms : JsTime)
    (rounds : Nat → List RawArticle) :
    ∀ (fuel : Nat) (st : RunState), maxScrollAttempts ≤ st.scrollAttempts + fuel →
      (fetchLoop pd uid sT ms rounds fuel st).hasReachedStartTime = true ∨
      3 ≤ (fetchLoop pd uid sT ms rounds fuel st).noNewTweetsCount ∨
      maxScrollAttempts ≤ (fetchLoop pd uid sT ms rounds fuel st).scrollAttempts := by
  intro fuel
  induction fuel with
  | zero =>
    intro st hfuel
    right; right
    simpa using hfuel
  | succ f ih =>
    intro st hfuel
    simp only [fetchLoop]
    by_cases hg : st.scrollAttempts < maxScrollAttempts ∧ st.hasReachedStartTime = false
    · rw [if_pos hg]
      by_cases hb1 : 3 ≤ (runRound pd uid sT ms (rounds st.scrollAttempts) st).noNewTweetsCount
      · rw [if_pos hb1]; exact Or.inr (Or.inl hb1)
      · rw [if_neg hb1]
        by_cases hb2 : (runRound pd uid sT ms (rounds st.scrollAttempts) st).hasReachedStartTime
        · rw [if_pos hb2]; exact Or.inl hb2
        · rw [if_neg hb2]
          apply ih
          dsimp only
          rw [runRound_scrollAttempts]
          omega
    · rw [if_neg hg]
      rcases Decidable.not_and_iff_or_not.mp hg with h | h
      · right; right; omega
      · left; simpa using h

theorem fetchLoop_scroll_le (pd : String → Option Int) (uid sT : String) (ms : JsTime)
    (rounds : Nat → List RawArticle) :
    ∀ (fuel : Nat) (st : RunState), st.scrollAttempts ≤ maxScrollAttempts →
      (fetchLoop pd uid sT ms rounds fuel st).scrollAttempts ≤ maxScrollAttempts := by
  intro fuel
  induction fuel with
  | zero => intro st h; exact h
  | succ f ih =>
    intro st h
    simp only [fetchLoop]
    by_cases hg : st.scrollAttempts < maxScrollAttempts ∧ st.hasReachedStartTime = false
    · rw [if_pos hg]
      by_cases hb1 : 3 ≤ (runRound pd uid sT ms (rounds st.scrollAttempts) st).noNewTweetsCount
      · rw [if_pos hb1]; rw [runRound_scrollAttempts]; omega
      · rw [if_neg hb1]
        by_cases hb2 : (runRound pd uid sT ms (rounds st.scrollAttempts) st).hasReachedStartTime
        · rw [if_pos hb2]; rw [runRound_scrollAttempts]; omega
        · rw [if_neg hb2]
          apply ih
          simp only [runRound_scrollAttempts]
          omega
    · rw [if_neg hg]; exact h

theorem fetchLoop_fuel_indifferent (pd : String → Option Int) (uid sT : String) (ms : JsTime)
    (rounds : Nat → List RawArticle) :
    ∀ (fuel₁ fuel₂ : Nat) (st : RunState),
      maxScrollAttempts - st.scrollAttempts ≤ fuel₁ →
      maxScrollAttempts - st.scrollAttempts ≤ fuel₂ →
      fetchLoop pd uid sT ms rounds fuel₁ st = fetchLoop pd uid sT ms rounds fuel₂ st := by
  intro fuel₁
  induction fuel₁ with
  | zero =>
    intro fuel₂ st h1 h2
    have hs : maxScrollAttempts ≤ st.scrollAttempts := by omega
    cases fuel₂ with
    | zero => rfl
    | succ g =>
      simp only [fetchLoop]
      rw [if_neg (by omega)]
  | succ f ih =>
    intro fuel₂ st h1 h2
    cases fuel₂ with
    | zero =>
      have hs : maxScrollAttempts ≤ st.scrollAttempts := by omega
      simp only [fetchLoop]
      rw [if_neg (by omega)]
    | succ g =>
      simp only [fetchLoop]
      by_cases hg : st.scrollAttempts < maxScrollAttempts ∧ st.hasReachedStartTime = false
      · rw [if_pos hg, if_pos hg]
        by_cases hb1 : 3 ≤ (runRound pd uid sT ms (rounds st.scrollAttempts) st).noNewTweetsCount
        · rw [if_pos hb1, if_pos hb1]
        · rw [if_neg hb1, if_neg hb1]
          by_cases hb2 : (runRound pd uid sT ms (rounds st.scrollAttempts) st).hasReachedStartTime
          · rw [if_pos hb2, if_pos hb2]
          · rw [if_neg hb2, if_neg hb2]
            apply ih
            · simp only [runRound_scrollAttempts]; omega
            · simp only [runRound_scrollAttempts]; omega
      · rw [if_neg hg, if_neg hg]

/-! ### Behaviour with an empty startTime (the boundary disabled) -/

theorem processTweet_flag_empty_startTime (pd : String → Option Int) (ms : JsTime)
    (acc : RoundAcc) (c : Candidate) :
    (processTweet pd "" ms acc c).hasReachedStartTime = acc.hasReachedStartTime := by
  by_cases h1 : acc.tweetIds.contains c.id
  · rw [processTweet_seen pd "" ms acc c h1]
  · rw [processTweet_fresh_inScope pd "" ms acc c (by simpa using h1) (by simp)]

theorem processTweets_flag_empty_startTime (pd : String → Option Int) (ms : JsTime) :
    ∀ (l : List Candidate) (acc : RoundAcc),
      (processTweets pd "" ms acc l).hasReachedStartTime = acc.hasReachedStartTime := by
  intro l
  induction l with
  | nil => intro acc; rfl
  | cons c cs ih =>
    intro acc
    simp only [processTweets]
    by_cases hb : (processTweet pd "" ms acc c).hasReachedStartTime
    · rw [if_pos hb]
      rw [processTweet_flag_empty_startTime] at hb
      rw [processTweet_flag_empty_startTime, hb]
    · rw [if_neg hb]
      rw [ih, processTweet_flag_empty_startTime]

theorem fetchLoop_flag_empty_startTime (pd : String → Option Int) (uid : String) (ms : JsTime)
    (rounds : Nat → List RawArticle) :
    ∀ (fuel : Nat) (st : RunState),
      (fetchLoop pd uid "" ms rounds fuel st).hasReachedStartTime = st.hasReachedStartTime := by
  intro fuel
  induction fuel with
  | zero => intro st; rfl
  | succ f ih =>
    intro st
    have hrr : (runRound pd uid "" ms (rounds st.scrollAttempts) st).hasReachedStartTime =
        st.hasReachedStartTime := by
      simp only [runRound]
      rw [processTweets_flag_empty_startTime]
      rfl
    simp only [fetchLoop]
    by_cases hg : st.scrollAttempts < maxScrollAttempts ∧ st.hasReachedStartTime = false
    · rw [if_pos hg]
      by_cases hb1 : 3 ≤ (runRound pd uid "" ms (rounds st.scrollAttempts) st).noNewTweetsCount
      · rw [if_pos hb1]; rw [hrr]
      · rw [if_neg hb1]
        by_cases hb2 : (runRound pd uid "" ms (rounds st.scrollAttempts) st).hasReachedStartTime
        · rw [if_pos hb2]; rw [hrr]
        · rw [if_neg hb2]
          rw [ih]
          simpa using hrr
    · rw [if_neg hg]

/-! ### Stale-streak lemmas for one round's candidate loop -/

theorem processTweets_append (pd : String → Option Int) (sT : String) (ms : JsTime) :
    ∀ (l1 l2 : List Candidate) (acc : RoundAcc), acc.hasReachedStartTime = false →
      processTweets pd sT ms acc (l1 ++ l2) =
        (if (processTweets pd sT ms acc l1).hasReachedStartTime then
          processTweets pd sT ms acc l1
        else processTweets pd sT ms (processTweets pd sT ms acc l1) l2) := by
  intro l1
  induction l1 with
  | nil =>
    intro l2 acc hflag
    simp only [List.nil_append, processTweets]
    rw [if_neg (by simp [hflag])]
  | cons c cs ih =>
    intro l2 acc hflag
    simp only [List.cons_append, processTweets]
    by_cases hb : (processTweet pd sT ms acc c).hasReachedStartTime
    · rw [if_pos hb, if_pos hb, if_pos hb]
    · rw [if_neg hb, if_neg hb]
      exact ih l2 _ (by simpa using hb)

theorem processTweets_cons_of_flag_true (pd : String → Option Int) (sT : String) (ms : JsTime)
    (acc : RoundAcc) (c : Candidate) (cs : List Candidate)
    (h : (processTweet pd sT ms acc c).hasReachedStartTime = true) :
    processTweets pd sT ms acc (c :: cs) = processTweet pd sT ms acc c := by
  simp only [processTweets]
  rw [if_pos h]

theorem processTweets_cons_of_flag_false (pd : String → Option Int) (sT : String) (ms : JsTime)
    (acc : RoundAcc) (c : Candidate) (cs : List Candidate)
    (h : (processTweet pd sT ms acc c).hasReachedStartTime = false) :
    processTweets pd sT ms acc (c :: cs) =
      processTweets pd sT ms (processTweet pd sT ms acc c) cs := by
  simp only [processTweets]
  rw [if_neg (by simp [h])]

theorem processTweets_three_stale (pd : String → Option Int) (sT : String) (ms : JsTime)
    (s1 s2 s3 : Candidate) (rest : List Candidate) (acc : RoundAcc)
    (hflag : acc.hasReachedStartTime = false)
    (hf1 : acc.tweetIds.contains s1.id = false)
    (hf2 : (acc.tweetIds ++ [s1.id]).contains s2.id = false)
    (hf3 : ((acc.tweetIds ++ [s1.id]) ++ [s2.id]).contains s3.id = false)
    (hs1 : (sT != "" && jsLt (pd s1.time) ms) = true) (hp1 : s1.isPinned = false)
    (hs2 : (sT != "" && jsLt (pd s2.time) ms) = true) (hp2 : s2.isPinned = false)
    (hs3 : (sT != "" && jsLt (pd s3.time) ms) = true) (hp3 : s3.isPinned = false) :
    processTweets pd sT ms acc (s1 :: s2 :: s3 :: rest) =
      processTweets pd sT ms acc [s1, s2, s3] ∧
    (processTweets pd sT ms acc (s1 :: s2 :: s3 :: rest)).hasReachedStartTime = true ∧
    (processTweets pd sT ms acc (s1 :: s2 :: s3 :: rest)).tweets = acc.tweets := by
  by_cases h4 : 3 ≤ acc.nonPinnedOldTweetCount + 1
  · have e1 := processTweet_fresh_stale_np_fire pd sT ms acc s1 hf1 hs1 hp1 h4
    have hT1 : (processTweet pd sT ms acc s1).hasReachedStartTime = true := by rw [e1]
    have hL := processTweets_cons_of_flag_true pd sT ms acc s1 (s2 :: s3 :: rest) hT1
    have hR := processTweets_cons_of_flag_true pd sT ms acc s1 [s2, s3] hT1
    refine ⟨by rw [hL, hR], by rw [hL, hT1], by rw [hL, e1]⟩
  · have e1 := processTweet_fresh_stale_np_nofire pd sT ms acc s1 hf1 hs1 hp1 h4
    have hF1 : (processTweet pd sT ms acc s1).hasReachedStartTime = false := by
      rw [e1]; exact hflag
    have hL1 := processTweets_cons_of_flag_false pd sT ms acc s1 (s2 :: s3 :: rest) hF1
    have hR1 := processTweets_cons_of_flag_false pd sT ms acc s1 [s2, s3] hF1
    have hc2 : (processTweet pd sT ms acc s1).tweetIds.contains s2.id = false := by
      rw [e1]; exact hf2
    by_cases h5 : 3 ≤ acc.nonPinnedOldTweetCount + 1 + 1
    · have hn5 : 3 ≤ (processTweet pd sT ms acc s1).nonPinnedOldTweetCount + 1 := by
        rw [e1]; exact h5
      have e2 := processTweet_fresh_stale_np_fire pd sT ms
        (processTweet pd sT ms acc s1) s2 hc2 hs2 hp2 hn5
      have hT2 : (processTweet pd sT ms (processTweet pd sT ms acc s1) s2).hasReachedStartTime =
          true := by rw [e2]
      have hL2 := processTweets_cons_of_flag_true pd sT ms
        (processTweet pd sT ms acc s1) s2 (s3 :: rest) hT2
      have hR2 := processTweets_cons_of_flag_true pd sT ms
        (processTweet pd sT ms acc s1) s2 [s3] hT2
      refine ⟨by rw [hL1, hR1, hL2, hR2], by rw [hL1, hL2, hT2], ?_⟩
      rw [hL1, hL2, e2]
      show (processTweet pd sT ms acc s1).tweets = acc.tweets
      rw [e1]
    · have hn5 : ¬ 3 ≤ (processTweet pd sT ms acc s1).nonPinnedOldTweetCount + 1 := by
        rw [e1]; exact h5
      have e2 := processTweet_fresh_stale_np_nofire pd sT ms
        (processTweet pd sT ms acc s1) s2 hc2 hs2 hp2 hn5
      have hF2 : (processTweet pd sT ms (processTweet pd sT ms acc s1) s2).hasReachedStartTime =
          false := by rw [e2]; rw [e1]; exact hflag
      have hL2 := processTweets_cons_of_flag_false pd sT ms
        (processTweet pd sT ms acc s1) s2 (s3 :: rest) hF2
      have hR2 := processTweets_cons_of_flag_false pd sT ms
        (processTweet pd sT ms acc s1) s2 [s3] hF2
      have hc3 : (processTweet pd sT ms (processTweet pd sT ms acc s1) s2).tweetIds.contains
          s3.id = false := by
        rw [e2, e1]; exact hf3
      have hn6 : 3 ≤ (processTweet pd sT ms
          (processTweet pd sT ms acc s1) s2).nonPinnedOldTweetCount + 1 := by
        rw [e2, e1]
        show 3 ≤ acc.nonPinnedOldTweetCount + 1 + 1 + 1
        omega
      have e3 := processTweet_fresh_stale_np_fire pd sT ms
        (processTweet pd sT ms (processTweet pd sT ms acc s1) s2) s3 hc3 hs3 hp3 hn6
      have hT3 : (processTweet pd sT ms
          (processTweet pd sT ms (processTweet pd sT ms acc s1) s2) s3).hasReachedStartTime =
          true := by rw [e3]
      have hL3 := processTweets_cons_of_flag_true pd sT ms
        (processTweet pd sT ms (processTweet pd sT ms acc s1) s2) s3 rest hT3
      have hR3 := processTweets_cons_of_flag_true pd sT ms
        (processTweet pd sT ms (processTweet pd sT ms acc s1) s2) s3 [] hT3
      refine ⟨by rw [hL1, hR1, hL2, hR2, hL3, hR3], by rw [hL1, hL2, hL3, hT3], ?_⟩
      rw [hL1, hL2, hL3, e3]
      show (processTweet pd sT ms (processTweet pd sT ms acc s1) s2).tweets = acc.tweets
      rw [e2]
      show (processTweet pd sT ms acc s1).tweets = acc.tweets
      rw [e1]

/-! ### Claim theorems for the collector -/

/-- C2 counterexample — boundary 10; in discovery order the run meets three
consecutive newly-deduped non-pinned candidates older than the boundary
("a" and "b" in round 0, "c" in round 1).  The claim's run-level-counter
reading predicts the boundary-reached flag is set; the code re-declares the
stale counter inside each round, so the flag is never set and the run ends
by the idle streak instead. -/
theorem C2_counterexample :
    (fetchSingleUser demoParse "u" "10" demoRoundsSpanning).hasReachedStartTime = false ∧
    (fetchSingleUser demoParse "u" "10" demoRoundsSpanning).noNewTweetsCount = 3 := by
  constructor <;> decide

/-- C2 (amended) — Within a single pagination round: once three consecutive
newly-deduped non-pinned stale candidates are met, the boundary-reached
flag is set, the remaining candidates of the round are not processed
(processing the list equals processing it truncated after the third stale
candidate), and no stale candidate is appended; a pinned stale candidate is
excluded from output and leaves the stale streak untouched.  The streak
counter is re-initialized at every round, so streaks never span rounds. -/
theorem C2_amended_stale_streak (pd : String → Option Int) (sT : String) (ms : JsTime)
    (acc : RoundAcc) (pre : List Candidate) (s1 s2 s3 : Candidate) (rest : List Candidate)
    (hflag : acc.hasReachedStartTime = false)
    (hmid : (processTweets pd sT ms acc pre).hasReachedStartTime = false)
    (hf1 : (processTweets pd sT ms acc pre).tweetIds.contains s1.id = false)
    (hf2 : ((processTweets pd sT ms acc pre).tweetIds ++ [s1.id]).contains s2.id = false)
    (hf3 : (((processTweets pd sT ms acc pre).tweetIds ++ [s1.id]) ++ [s2.id]).contains
      s3.id = false)
    (hs1 : (sT != "" && jsLt (pd s1.time) ms) = true) (hp1 : s1.isPinned = false)
    (hs2 : (sT != "" && jsLt (pd s2.time) ms) = true) (hp2 : s2.isPinned = false)
    (hs3 : (sT != "" && jsLt (pd s3.time) ms) = true) (hp3 : s3.isPinned = false) :
    (processTweets pd sT ms acc (pre ++ (s1 :: s2 :: s3 :: rest))).hasReachedStartTime = true ∧
    (processTweets pd sT ms acc (pre ++ (s1 :: s2 :: s3 :: rest))).tweets =
      (processTweets pd sT ms acc pre).tweets ∧
    processTweets pd sT ms acc (pre ++ (s1 :: s2 :: s3 :: rest)) =
      processTweets pd sT ms acc (pre ++ [s1, s2, s3]) ∧
    (∀ (acc2 : RoundAcc) (c : Candidate),
      acc2.tweetIds.contains c.id = false →
      (sT != "" && jsLt (pd c.time) ms) = true → c.isPinned = true →
      processTweet pd sT ms acc2 c = { acc2 with tweetIds := acc2.tweetIds ++ [c.id] }) := by
  obtain ⟨heq, hflagT, htw⟩ := processTweets_three_stale pd sT ms s1 s2 s3 rest
    (processTweets pd sT ms acc pre) hmid hf1 hf2 hf3 hs1 hp1 hs2 hp2 hs3 hp3
  have happ1 := processTweets_append pd sT ms pre (s1 :: s2 :: s3 :: rest) acc hflag
  have happ2 := processTweets_append pd sT ms pre [s1, s2, s3] acc hflag
  rw [if_neg (by simp [hmid])] at happ1 happ2
  refine ⟨?_, ?_, ?_, ?_⟩
  · rw [happ1]; exact hflagT
  · rw [happ1]; exact htw
  · rw [happ1, heq, happ2]
  · intro acc2 c h1 h2 h3
    exact processTweet_fresh_stale_pinned pd sT ms acc2 c h1 h2 h3

/-- Concrete evaluation of the amended C2 theorem: boundary 10, three fresh
stale non-pinned candidates inside one round set the flag, exclude them all
from output, and cut off a fourth candidate; a concrete fresh stale pinned
candidate is excluded with the streak untouched. -/
theorem C2_amended_stale_streak_witness :
    (processTweets demoParse "10" (some 10) ⟨[], [], 0, 0, false⟩
      ([] ++ (demoCand "a" "5" false :: demoCand "b" "5" false :: demoCand "c" "5" false ::
        [demoCand "d" "12" false]))).hasReachedStartTime = true ∧
    (processTweets demoParse "10" (some 10) ⟨[], [], 0, 0, false⟩
      ([] ++ (demoCand "a" "5" false :: demoCand "b" "5" false :: demoCand "c" "5" false ::
        [demoCand "d" "12" false]))).tweets =
      (processTweets demoParse "10" (some 10) ⟨[], [], 0, 0, false⟩ []).tweets ∧
    processTweets demoParse "10" (some 10) ⟨[], [], 0, 0, false⟩
      ([] ++ (demoCand "a" "5" false :: demoCand "b" "5" false :: demoCand "c" "5" false ::
        [demoCand "d" "12" false])) =
      processTweets demoParse "10" (some 10) ⟨[], [], 0, 0, false⟩
        ([] ++ [demoCand "a" "5" false, demoCand "b" "5" false, demoCand "c" "5" false]) ∧
    processTweet demoParse "10" (some 10) ⟨[], [], 0, 0, false⟩ (demoCand "p" "5" true) =
      ⟨[], ["p"], 0, 0, false⟩ := by
  obtain ⟨w1, w2, w3, w4⟩ := C2_amended_stale_streak demoParse "10" (some 10)
    ⟨[], [], 0, 0, false⟩ [] (demoCand "a" "5" false) (demoCand "b" "5" false)
    (demoCand "c" "5" false) [demoCand "d" "12" false]
    (by decide) (by decide) (by decide) (by decide) (by decide)
    (by decide) (by decide) (by decide) (by decide) (by decide) (by decide)
  exact ⟨w1, w2, w3, w4 ⟨[], [], 0, 0, false⟩ (demoCand "p" "5" true)
    (by decide) (by decide) (by decide)⟩

/-- C3 counterexample — a candidate carrying a permalink, an authorship link
and a time element whose datetime attribute is the unparseable string
"garbage" is appended to the output (NaN compares false against the
boundary), so the output does contain a record with unparseable
publishedAt, contradicting the claim's parseable-timestamp validation. -/
theorem C3_counterexample :
    (fetchSingleUser demoParse "u" "10" demoRoundsGarbage).tweets =
      [{ userId := "u", textContent := "post g", time := "garbage", imageUrls := [] }] ∧
    demoParse "garbage" = none := by
  constructor <;> decide

/-- C3 (amended) — A candidate survives extraction exactly when it carries a
resolvable permalink-derived id, a link confirming authorship by the target
author, and a time element bearing a datetime attribute (the attribute's
parseability is not checked); every record in the run's output originates
from such a validated candidate of some round, all other candidates are
silently skipped. -/
theorem C3_amended_validation (pd : String → Option Int) (uid sT : String)
    (rounds : Nat → List RawArticle) :
    (∀ a : RawArticle, (extractArticle uid a).isSome = true ↔
      (a.statusLink.isSome = true ∧ a.hasAuthorLink = true ∧ a.timeAttr.isSome = true)) ∧
    (∀ t ∈ (fetchSingleUser pd uid sT rounds).tweets,
      ∃ r c, c ∈ extractTweets uid (rounds r) ∧ t = toTweetInfo c) := by
  refine ⟨extractArticle_isSome_iff uid, ?_⟩
  intro t ht
  have hp := fetchLoop_provenance pd uid sT (mkStartTimeMs pd sT) rounds t
    maxScrollAttempts initRunState ht
  rcases hp with h | h
  · simp [initRunState] at h
  · exact h

/-- Concrete evaluation of the amended C3 theorem: the skip-iff
characterization at a concrete article missing its authorship link, and the
provenance of the first record of the walkthrough feed. -/
theorem C3_amended_validation_witness :
    ((extractArticle "u"
        { isPinned := false, statusLink := some "s", hasAuthorLink := false,
          timeAttr := some "12", tweetText := none, photoSrcs := [] }).isSome = true ↔
      ((some "s" : Option String).isSome = true ∧ false = true ∧
        (some "12" : Option String).isSome = true)) ∧
    (∃ r c, c ∈ extractTweets "u" (demoRoundsMain r) ∧
      ({ userId := "u", textContent := "post a", time := "12", imageUrls := [] } : TweetInfo) =
        toTweetInfo c) := by
  refine ⟨(C3_amended_validation demoParse "u" "10" demoRoundsMain).1 _, ?_⟩
  exact (C3_amended_validation demoParse "u" "10" demoRoundsMain).2
    { userId := "u", textContent := "post a", time := "12", imageUrls := [] } (by decide)

/-- C6 — The pagination loop terminates within the 100-round cap (any fuel
beyond the cap computes the same final state), the final scroll counter
never exceeds 100, at exit one of the three stop conditions holds
(boundary reached, idle streak at 3, or the cap), and a round that appends
at least one record resets the idle streak to 0. -/
theorem C6_termination (pd : String → Option Int) (uid sT : String)
    (rounds : Nat → List RawArticle) :
    (∀ k, fetchLoop pd uid sT (mkStartTimeMs pd sT) rounds (maxScrollAttempts + k)
      initRunState = fetchSingleUser pd uid sT rounds) ∧
    (fetchSingleUser pd uid sT rounds).scrollAttempts ≤ maxScrollAttempts ∧
    ((fetchSingleUser pd uid sT rounds).hasReachedStartTime = true ∨
      3 ≤ (fetchSingleUser pd uid sT rounds).noNewTweetsCount ∨
      (fetchSingleUser pd uid sT rounds).scrollAttempts = maxScrollAttempts) ∧
    (∀ (ms : JsTime) (articles : List RawArticle) (st : RunState),
      (processTweets pd sT ms (roundAccOf st) (extractTweets uid articles)).addedCount ≠ 0 →
      (runRound pd uid sT ms articles st).noNewTweetsCount = 0) := by
  have hscroll : (fetchSingleUser pd uid sT rounds).scrollAttempts ≤ maxScrollAttempts :=
    fetchLoop_scroll_le pd uid sT (mkStartTimeMs pd sT) rounds maxScrollAttempts
      initRunState (by simp [initRunState])
  refine ⟨?_, hscroll, ?_, ?_⟩
  · intro k
    exact fetchLoop_fuel_indifferent pd uid sT (mkStartTimeMs pd sT) rounds
      (maxScrollAttempts + k) maxScrollAttempts initRunState (by simp [initRunState])
      (by simp [initRunState])
  · have hexit := fetchLoop_exit pd uid sT (mkStartTimeMs pd sT) rounds
      maxScrollAttempts initRunState (by simp [initRunState])
    rw [show fetchLoop pd uid sT (mkStartTimeMs pd sT) rounds maxScrollAttempts
      initRunState = fetchSingleUser pd uid sT rounds from rfl] at hexit
    rcases hexit with h | h | h
    · exact Or.inl h
    · exact Or.inr (Or.inl h)
    · exact Or.inr (Or.inr (by omega))
  · intro ms articles st h
    simp only [runRound]
    rw [if_neg h]

/-- Concrete evaluation of the C6 theorem on the walkthrough feed: extra
fuel is indifferent, the scroll counter stays within the cap, a stop
condition holds at exit, and a concrete record-adding round resets the idle
streak. -/
theorem C6_termination_witness :
    fetchLoop demoParse "u" "10" (mkStartTimeMs demoParse "10") demoRoundsMain
      (maxScrollAttempts + 7) initRunState =
      fetchSingleUser demoParse "u" "10" demoRoundsMain ∧
    (fetchSingleUser demoParse "u" "10" demoRoundsMain).scrollAttempts ≤ maxScrollAttempts ∧
    ((fetchSingleUser demoParse "u" "10" demoRoundsMain).hasReachedStartTime = true ∨
      3 ≤ (fetchSingleUser demoParse "u" "10" demoRoundsMain).noNewTweetsCount ∨
      (fetchSingleUser demoParse "u" "10" demoRoundsMain).scrollAttempts =
        maxScrollAttempts) ∧
    (runRound demoParse "u" "10" (some 10) (demoRoundsMain 0) initRunState).noNewTweetsCount
      = 0 := by
  obtain ⟨w1, w2, w3, w4⟩ := C6_termination demoParse "u" "10" demoRoundsMain
  exact ⟨w1 7, w2, w3, w4 (some 10) (demoRoundsMain 0) initRunState (by decide)⟩

/-- C7 — The run's output is the image of a list of contributing candidates
with pairwise distinct permalink ids, each registered in the seen-id set
(so no two output records stem from the same id); a candidate whose id is
already seen is a complete no-op, so only the first occurrence of an id can
contribute; and the seen-id set only ever grows along the loop.  The set is
created afresh by `initRunState` at each invocation (`fetchSingleUser`
unfolds to `fetchLoop` on `initRunState`), so deduplication is scoped to a
single run. -/
theorem C7_dedup (pd : String → Option Int) (uid sT : String)
    (rounds : Nat → List RawArticle) :
    (∃ cs : List Candidate,
      (fetchSingleUser pd uid sT rounds).tweets = cs.map toTweetInfo ∧
      (cs.map Candidate.id).Nodup ∧
      ∀ c ∈ cs, c.id ∈ (fetchSingleUser pd uid sT rounds).tweetIds) ∧
    (∀ (ms : JsTime) (acc : RoundAcc) (c : Candidate),
      acc.tweetIds.contains c.id = true → processTweet pd sT ms acc c = acc) ∧
    (∀ (ms : JsTime) (fuel : Nat) (st : RunState) (x : String), x ∈ st.tweetIds →
      x ∈ (fetchLoop pd uid sT ms rounds fuel st).tweetIds) := by
  refine ⟨?_, ?_, ?_⟩
  · exact fetchLoop_ghost pd uid sT (mkStartTimeMs pd sT) rounds maxScrollAttempts
      initRunState [] (by simp [initRunState]) (by simp) (by simp)
  · intro ms acc c h
    exact processTweet_seen pd sT ms acc c h
  · intro ms fuel st x hx
    exact mem_tweetIds_fetchLoop pd uid sT ms rounds x fuel st hx

/-- Concrete evaluation of the C7 theorem on the walkthrough feed, with a
concrete already-seen candidate being a no-op and a concrete id surviving
the loop. -/
theorem C7_dedup_witness :
    (∃ cs : List Candidate,
      (fetchSingleUser demoParse "u" "10" demoRoundsMain).tweets = cs.map toTweetInfo ∧
      (cs.map Candidate.id).Nodup ∧
      ∀ c ∈ cs, c.id ∈ (fetchSingleUser demoParse "u" "10" demoRoundsMain).tweetIds) ∧
    processTweet demoParse "10" (some 10) ⟨[], ["a"], 0, 0, false⟩ (demoCand "a" "12" false) =
      ⟨[], ["a"], 0, 0, false⟩ ∧
    "a" ∈ (fetchLoop demoParse "u" "10" (some 10) demoRoundsMain 3
      ⟨[], ["a"], 0, 0, false⟩).tweetIds := by
  obtain ⟨w1, w2, w3⟩ := C7_dedup demoParse "u" "10" demoRoundsMain
  exact ⟨w1, w2 (some 10) ⟨[], ["a"], 0, 0, false⟩ (demoCand "a" "12" false) (by decide),
    w3 (some 10) 3 ⟨[], ["a"], 0, 0, false⟩ "a" (by decide)⟩

/-- C10 — With an empty startTime the boundary check is disabled: the
boundary-reached flag is never set, every newly-deduped validated candidate
(pinned or not, however old) is appended to the output with the streak reset
to 0, and the run terminates only by the idle streak or the 100-round
cap. -/
theorem C10_empty_startTime (pd : String → Option Int) (uid : String)
    (rounds : Nat → List RawArticle) :
    (fetchSingleUser pd uid "" rounds).hasReachedStartTime = false ∧
    (∀ (ms : JsTime) (acc : RoundAcc) (c : Candidate), acc.tweetIds.contains c.id = false →
      processTweet pd "" ms acc c =
        { acc with tweetIds := acc.tweetIds ++ [c.id], nonPinnedOldTweetCount := 0,
                   tweets := acc.tweets ++ [toTweetInfo c],
                   addedCount := acc.addedCount + 1 }) ∧
    (3 ≤ (fetchSingleUser pd uid "" rounds).noNewTweetsCount ∨
      (fetchSingleUser pd uid "" rounds).scrollAttempts = maxScrollAttempts) := by
  have hflag : (fetchSingleUser pd uid "" rounds).hasReachedStartTime = false := by
    unfold fetchSingleUser
    rw [fetchLoop_flag_empty_startTime]
    rfl
  refine ⟨hflag, ?_, ?_⟩
  · intro ms acc c h
    exact processTweet_fresh_inScope pd "" ms acc c h (by simp)
  · have hexit := fetchLoop_exit pd uid "" (mkStartTimeMs pd "") rounds
      maxScrollAttempts initRunState (by simp [initRunState])
    have hscroll := fetchLoop_scroll_le pd uid "" (mkStartTimeMs pd "") rounds
      maxScrollAttempts initRunState (by simp [initRunState])
    rw [show fetchLoop pd uid "" (mkStartTimeMs pd "") rounds maxScrollAttempts
      initRunState = fetchSingleUser pd uid "" rounds from rfl] at hexit hscroll
    rcases hexit with h | h | h
    · rw [hflag] at h
      cases h
    · exact Or.inl h
    · exact Or.inr (by omega)

/-- Concrete evaluation of the C10 theorem: an empty startTime on the
spanning feed never reaches the boundary, a concrete fresh pinned-and-old
candidate is appended anyway, and the run ends by idle streak or cap. -/
theorem C10_empty_startTime_witness :
    (fetchSingleUser demoParse "u" "" demoRoundsSpanning).hasReachedStartTime = false ∧
    processTweet demoParse "" (some 0) ⟨[], [], 0, 0, false⟩ (demoCand "p" "5" true) =
      ⟨[{ userId := "u", textContent := "", time := "5", imageUrls := [] }], ["p"], 0, 1,
        false⟩ ∧
    (3 ≤ (fetchSingleUser demoParse "u" "" demoRoundsSpanning).noNewTweetsCount ∨
      (fetchSingleUser demoParse "u" "" demoRoundsSpanning).scrollAttempts =
        maxScrollAttempts) := by
  obtain ⟨w1, w2, w3⟩ := C10_empty_startTime demoParse "u" demoRoundsSpanning
  exact ⟨w1, w2 (some 0) ⟨[], [], 0, 0, false⟩ (demoCand "p" "5" true) (by decide), w3⟩

/-! ### Witnesses for the orchestrator claims -/

/-- Concrete evaluation of the C1 theorem: two jobs, the first exhausting
its attempts, the orchestrator returns two results in input order with the
first degraded to the empty record. -/
theorem C1_orchestrator_shape_witness :
    (fetchMultipleUser demoParse demoCollect none
      [⟨"bad", "10"⟩, ⟨"good", "10"⟩]).length = 2 ∧
    ((fetchMultipleUser demoParse demoCollect none
      [⟨"bad", "10"⟩, ⟨"good", "10"⟩]).get ⟨1, by decide⟩).userId = "good" ∧
    (fetchMultipleUser demoParse demoCollect none
      [⟨"bad", "10"⟩, ⟨"good", "10"⟩]).get ⟨0, by decide⟩ = emptyResult "bad" := by
  obtain ⟨w1, w2, w3⟩ := C1_orchestrator_shape demoParse demoCollect none
    [⟨"bad", "10"⟩, ⟨"good", "10"⟩]
  refine ⟨w1, w2 1 (by decide) (by decide), ?_⟩
  exact w3 0 (by decide) (by decide) (fun a h1 h2 => ⟨"boom", rfl⟩)

/-- Concrete evaluation of the C4 theorem with maxRetries = 2 and a hook
that itself fails: failure then success returns the data with one hook
invocation; two failures yield the empty record with one hook invocation;
and a succeeding hook gives the same outcome as the failing one. -/
theorem C4_retry_semantics_witness :
    fetchTask demoParse demoCollect2 (some demoHook) 2 "u" =
      ({ userId := "u", tweets := demoTweets1,
         latestTweetTime := latestTweetTime demoParse demoTweets1 }, 1) ∧
    fetchTask demoParse demoFail (some demoHook) 2 "u" = (emptyResult "u", 1) ∧
    fetchTask demoParse demoCollect2 (some demoHook) 2 "u" =
      fetchTask demoParse demoCollect2 (some demoHook2) 2 "u" := by
  obtain ⟨wa, _, wc⟩ := C4_retry_semantics demoParse demoCollect2 2 "u" demoHook
  obtain ⟨_, wb, _⟩ := C4_retry_semantics demoParse demoFail 2 "u" demoHook
  refine ⟨?_, ?_, wc demoHook2⟩
  · have hfail : ∀ a, 1 ≤ a → a < 2 → ∃ e, demoCollect2 a = Except.error e := by
      intro a h1 h2
      have ha : a = 1 := by omega
      subst ha
      exact ⟨"boom", rfl⟩
    exact wa demoTweets1 (by decide) hfail rfl
  · exact wb fun a h1 h2 => ⟨"boom", rfl⟩

/-- Concrete evaluation of the C5 theorem on an unsorted two-post list:
the latest time is the maximal one, 12, not the first in discovery order. -/
theorem C5_latest_is_max_witness :
    (latestTweetTime demoParse demoTweetsPair = none ↔ demoTweetsPair = []) ∧
    (∃ t vt, t ∈ demoTweetsPair ∧
      latestTweetTime demoParse demoTweetsPair = some t.time ∧
      demoParse t.time = some vt ∧
      ∀ u ∈ demoTweetsPair, ∀ vu, demoParse u.time = some vu → vu ≤ vt) := by
  obtain ⟨w1, w2⟩ := C5_latest_is_max demoParse demoTweetsPair (by decide)
  exact ⟨w1, w2 (by decide)⟩

end XMessager

